import Mathlib

/-!
# LedgerPro extraction pipeline: shallow embedding and verification

This file embeds, in Lean, the parts of the LedgerPro statement-extraction
pipeline that the specification's claims are about:

* `mcp-servers/pdf-processor/pdf_processor_server.py`:
  `parse_capital_one_transactions` (the two-date text-block parser with its
  three-line foreign-currency lookahead), `parse_amount`, and the
  summary/result assembly of `process_bank_pdf`;
* `backend/processors/python/camelot_processor.py`:
  `parse_capital_one_transaction_row`, `categorize_transaction`,
  the accuracy filter of `extract_tables_with_camelot`, the
  extraction-method choice of `process_pdf`, `deduplicate_transactions`
  with `_transactions_match` and `_clean_description_for_matching`,
  and `generate_summary`;
* `backend/processors/python/csv_processor_enhanced_fixed.py`:
  the per-row loop of `process_single_header_csv`, `map_columns`,
  `parse_amount_enhanced` and `_categorize_transaction`;
* `backend/api_server_real.py`: the summary block of
  `process_file_with_processor`.

Strings are modelled as `List Char` (ASCII character classes stand in for
Python's `str` classes), amounts and accuracy scores as `ℚ`, Python `dict`s
as insertion-ordered association lists, a raised exception as `Option.none`.
Python regular expressions are compiled by hand into deterministic matchers
that reproduce the backtracking order of `re` on the pattern in question.
-/

namespace LedgerPro

/-! ## Python string primitives -/

/-- Python's `\s` / `str.strip()` whitespace (ASCII part). -/
def isWsChar (c : Char) : Bool :=
  c = ' ' || c = '\t' || c = '\n' || c = '\r' || c = '\x0b' || c = '\x0c'

def isDigitChar (c : Char) : Bool := '0' ≤ c && c ≤ '9'

/-- Char class `[A-Za-z]`. -/
def isAlphaChar (c : Char) : Bool :=
  ('A' ≤ c && c ≤ 'Z') || ('a' ≤ c && c ≤ 'z')

/-- Char class `[A-Z]`. -/
def isUpperAZ (c : Char) : Bool := 'A' ≤ c && c ≤ 'Z'

/-- Python's `\w` (ASCII part): letters, digits, underscore. -/
def isWordChar (c : Char) : Bool := isAlphaChar c || isDigitChar c || c = '_'

def lowerCh (c : Char) : Char :=
  if 'A' ≤ c ∧ c ≤ 'Z' then Char.ofNat (c.toNat + 32) else c

def upperCh (c : Char) : Char :=
  if 'a' ≤ c ∧ c ≤ 'z' then Char.ofNat (c.toNat - 32) else c

def lowerStr (cs : List Char) : List Char := cs.map lowerCh

def upperStr (cs : List Char) : List Char := cs.map upperCh

/-- Python `str.strip()`. -/
def pyStrip (cs : List Char) : List Char :=
  ((cs.dropWhile isWsChar).reverse.dropWhile isWsChar).reverse

/-- Python's substring test `needle in hay`. -/
def infixOf (needle : List Char) : List Char → Bool
  | [] => needle.isEmpty
  | c :: t => needle.isPrefixOf (c :: t) || infixOf needle t

/-- Python `str.replace(needle, repl)` for a non-empty needle. -/
def replaceAll (needle repl : List Char) : List Char → List Char
  | [] => []
  | c :: t =>
    if h : needle.isPrefixOf (c :: t) ∧ needle ≠ [] then
      repl ++ replaceAll needle repl ((c :: t).drop needle.length)
    else
      c :: replaceAll needle repl t
termination_by cs => cs.length
decreasing_by
  · have hpos : 0 < needle.length := List.length_pos.mpr h.2
    simp only [List.length_drop, List.length_cons]
    omega
  · simp

/-- Python `re.sub(r"\s+", " ", s)`: collapse each whitespace run to one space. -/
def collapseWsAux : List Char → Bool → List Char
  | [], _ => []
  | c :: t, inRun =>
    if isWsChar c then
      if inRun then collapseWsAux t true else ' ' :: collapseWsAux t true
    else
      c :: collapseWsAux t false

def collapseWs (cs : List Char) : List Char := collapseWsAux cs false

/-- Python `str.split()` with no argument: split on whitespace runs, drop empties.
`acc` holds the characters of the word currently being read, reversed. -/
def pySplitAux : List Char → List Char → List (List Char)
  | [], acc => if acc.isEmpty then [] else [acc.reverse]
  | c :: t, acc =>
    if isWsChar c then
      if acc.isEmpty then pySplitAux t [] else acc.reverse :: pySplitAux t []
    else
      pySplitAux t (c :: acc)

def pySplit (cs : List Char) : List (List Char) := pySplitAux cs []

/-- Python `str.split('\n')`. -/
def splitNl (cs : List Char) : List (List Char) :=
  go cs []
where
  go : List Char → List Char → List (List Char)
    | [], acc => [acc.reverse]
    | c :: t, acc => if c = '\n' then acc.reverse :: go t [] else go t (c :: acc)

/-- Value of a digit string as a natural number. -/
def natVal (cs : List Char) : Nat :=
  cs.foldl (fun acc c => 10 * acc + (c.toNat - 48)) 0

/-- Python `float(s)` on strings made of an optional sign, digits and at most
one dot (the only shapes reachable from the call sites embedded here);
`none` models `ValueError`. -/
def pyFloat (cs : List Char) : Option ℚ :=
  let s := pyStrip cs
  let signBody : ℚ × List Char :=
    match s with
    | '+' :: t => (1, t)
    | '-' :: t => (-1, t)
    | _ => (1, s)
  let sign := signBody.1
  let body := signBody.2
  let intPart := body.takeWhile isDigitChar
  let rest := body.drop intPart.length
  match rest with
  | [] => if intPart.isEmpty then none else some (sign * (natVal intPart : ℚ))
  | '.' :: t =>
    if t.all isDigitChar ∧ (intPart ≠ [] ∨ t ≠ []) then
      some (sign * ((natVal intPart : ℚ) + (natVal t : ℚ) / (10 : ℚ) ^ t.length))
    else none
  | _ => none

/-! ## `pdf_processor_server.py`: regex matchers of `parse_capital_one_transactions`

The transaction-line pattern is
`^([A-Za-z]{3}\s+\d{1,2})\s+([A-Za-z]{3}\s+\d{1,2})\s+(.+?)\s+([-$]?\$?[\d,]+\.?\d*)$`.
The matchers below reproduce `re`'s backtracking order: the `\s+` runs and
`\d{1,2}` are effectively deterministic (whatever follows them can never
absorb their characters), while the lazy `(.+?)` is realised by an explicit
search over the split points, outer `\s+` length descending and description
length ascending, exactly the order in which the engine explores them. -/

/-- Full-string membership in `[\d,]+\.?\d*`. -/
def amtCore (cs : List Char) : Bool :=
  let a := cs.takeWhile (fun c => isDigitChar c || c = ',')
  if a.isEmpty then false
  else
    match cs.drop a.length with
    | [] => true
    | '.' :: t => t.all isDigitChar
    | _ => false

/-- Full-string membership in `\$?[\d,]+\.?\d*`. -/
def amtTail (cs : List Char) : Bool :=
  amtCore cs ||
    (match cs with
     | '$' :: t => amtCore t
     | _ => false)

/-- Full-string membership in `[-$]?\$?[\d,]+\.?\d*` (group 4 of the
transaction pattern, anchored at the end of the line). -/
def amtFull (cs : List Char) : Bool :=
  amtTail cs ||
    (match cs with
     | '-' :: t => amtTail t
     | '$' :: t => amtTail t
     | _ => false)

/-- One date group `[A-Za-z]{3}\s+\d{1,2}`: three letters, a whitespace run,
one or two digits whose run must stop there (the following `\s+` can never
match a digit, so a three-digit run fails both `{1,2}` alternatives).
Returns the captured text and the remaining input. -/
def parseDatePart : List Char → Option (List Char × List Char)
  | a :: b :: c :: rest =>
    if isAlphaChar a ∧ isAlphaChar b ∧ isAlphaChar c then
      let w := rest.takeWhile isWsChar
      if w.isEmpty then none
      else
        let r2 := rest.drop w.length
        let d := r2.takeWhile isDigitChar
        if d.length = 1 ∨ d.length = 2 then
          some (a :: b :: c :: (w ++ d), r2.drop d.length)
        else none
    else none
  | _ => none

/-- The `\s+(.+?)\s+(amount)$` suffix: `R` is the input after the second date
group.  The engine first takes the maximal whitespace run `m`, then grows the
lazy description one character at a time; on failure it shortens the leading
run, letting the description start inside it.  `.` never matches a newline. -/
def descAmtSplit (R : List Char) : Option (List Char × List Char) :=
  let m := (R.takeWhile isWsChar).length
  if m = 0 then none
  else
    ((List.range m).map (fun i => m - i)).findSome? (fun w =>
      ((List.range (R.length - w)).map (fun i => w + 1 + i)).findSome? (fun j =>
        let desc := (R.take j).drop w
        let S := R.drop j
        let k := (S.takeWhile isWsChar).length
        if 1 ≤ k ∧ desc.all (fun c => c ≠ '\n') ∧ amtFull (S.drop k) then
          some (desc, S.drop k)
        else none))

/-- Captures of the transaction-line regex. -/
structure TransMatch where
  trans_date : List Char
  post_date : List Char
  desc : List Char
  amt : List Char
deriving DecidableEq, Repr

/-- Python `re.match` of the transaction pattern against a (stripped) line. -/
def matchTransLine (cs : List Char) : Option TransMatch :=
  match parseDatePart cs with
  | none => none
  | some (g1, r1) =>
    let w := r1.takeWhile isWsChar
    if w.isEmpty then none
    else
      match parseDatePart (r1.drop w.length) with
      | none => none
      | some (g2, r2) =>
        match descAmtSplit r2 with
        | none => none
        | some (desc, amt) => some ⟨g1, g2, desc, amt⟩

/-- Python `re.match(r'^\$?([\d,]+\.?\d*)$', line)`: the captured group. -/
def origAmtCapture (cs : List Char) : Option (List Char) :=
  let body := match cs with
    | '$' :: t => t
    | _ => cs
  if amtCore body then some body else none

/-- Python `re.match(r'^([A-Z]{3})$', line)`. -/
def currencyCapture (cs : List Char) : Option (List Char) :=
  match cs with
  | [a, b, c] => if isUpperAZ a ∧ isUpperAZ b ∧ isUpperAZ c then some [a, b, c] else none
  | _ => none

/-- Tail test for `\s+exchange\s+rate` (case-insensitive, not anchored at the
end: `re.search` allows trailing text). -/
def exchangeRateTail (cs : List Char) : Bool :=
  let w1 := cs.takeWhile isWsChar
  if w1.isEmpty then false
  else
    let r1 := cs.drop w1.length
    if lowerStr (r1.take 8) = "exchange".data then
      let r2 := r1.drop 8
      let w2 := r2.takeWhile isWsChar
      if w2.isEmpty then false
      else lowerStr ((r2.drop w2.length).take 4) = "rate".data
    else false

/-- Greedy backtracking of `([\d.]+)` at a fixed start: try the full run of
`[0-9.]`, shortening until the `\s+exchange\s+rate` tail matches. -/
def rateTry (run tail : List Char) : Nat → Option (List Char)
  | 0 => none
  | k + 1 =>
    if exchangeRateTail (run.drop (k + 1) ++ tail) then some (run.take (k + 1))
    else rateTry run tail k

/-- Python `re.search(r'([\d.]+)\s+exchange\s+rate', line, re.IGNORECASE)`: scan the
start positions left to right. -/
def rateCapture : List Char → Option (List Char)
  | [] => none
  | c :: rest =>
    let run := (c :: rest).takeWhile (fun x => isDigitChar x || x = '.')
    match rateTry run ((c :: rest).drop run.length) run.length with
    | some cap => some cap
    | none => rateCapture rest

example : matchTransLine "Apr 15 Apr 16 UBER* EATSCIUDAD DE MEXCDM $26.03".data =
    some ⟨"Apr 15".data, "Apr 16".data, "UBER* EATSCIUDAD DE MEXCDM".data, "$26.03".data⟩ := by
  decide
example : rateCapture "19.931617365 Exchange Rate".data = some "19.931617365".data := by decide
example : currencyCapture "MXN".data = some "MXN".data := by decide
example : origAmtCapture "$518.82".data = some "518.82".data := by decide

/-! ## `pdf_processor_server.py`: `parse_amount` and the transaction loop -/

/-- Function `parse_amount`: strip `$`, `,` and spaces, turn `(...)` into a leading
minus, `float(...)`, with any failure giving `0.0`. -/
def parse_amount (cs : List Char) : ℚ :=
  let cleaned := pyStrip (cs.filter (fun c => c ≠ '$' ∧ c ≠ ',' ∧ c ≠ ' '))
  if cleaned.isEmpty then 0
  else
    let c2 :=
      if cleaned.contains '(' ∧ cleaned.contains ')' then
        '-' :: cleaned.filter (fun c => c ≠ '(' ∧ c ≠ ')')
      else cleaned
    (pyFloat c2).getD 0

/-- The substrings whose presence (lower-cased) makes the loop skip a line. -/
def skipPhrases : List (List Char) :=
  ["visit capitalone".data, "total fees".data, "interest charge".data,
   "annual percentage".data, "your apr".data, "rewards summary".data,
   "trans date post date description amount".data,
   "total transactions for this period".data, "hernandez #9581:".data,
   "payments, credits and adjustments".data]

def hasSkipPhrase (line : List Char) : Bool :=
  skipPhrases.any (fun p => infixOf p (lowerStr line))

/-- Test `"PAYMENT" in description.upper() or "PYMT" in ... or "PMT" in ...`. -/
def isPaymentDesc (desc : List Char) : Bool :=
  infixOf "PAYMENT".data (upperStr desc) || infixOf "PYMT".data (upperStr desc) ||
    infixOf "PMT".data (upperStr desc)

/-- A transaction emitted by `parse_capital_one_transactions`; an absent dict
key is `none` / `has_forex = false`. -/
structure PdfTxn where
  date : List Char
  transaction_date : List Char
  post_date : List Char
  description : List Char
  amount : ℚ
  bank : List Char
  raw_line : List Char
  original_amount : Option ℚ := none
  original_currency : Option (List Char) := none
  exchange_rate : Option ℚ := none
  has_forex : Bool := false
deriving DecidableEq, Repr

/-- The transaction dict built for a matched line, before forex enrichment. -/
def mkPdfTxn (m : TransMatch) (line : List Char) (desc : List Char) (amount : ℚ) : PdfTxn :=
  { date := m.post_date
    transaction_date := m.trans_date
    post_date := m.post_date
    description := desc
    amount := amount
    bank := "capital_one".data
    raw_line := line }

/-- One line of the `while i < len(lines)` loop, up to (not including) the
forex lookahead: `none` when the line is empty, contains a skip phrase,
fails the transaction regex, or parses to amount `0` — all of which just
advance `i` by one — and `some t` when the line builds a transaction dict. -/
def classifyCapLine (l : List Char) : Option PdfTxn :=
  let line := pyStrip l
  if line.isEmpty then none
  else if hasSkipPhrase line then none
  else
    match matchTransLine line with
    | none => none
    | some m =>
      let desc := collapseWs (pyStrip m.desc)
      let amount := parse_amount m.amt
      if amount = 0 then none
      else
        let amount := if isPaymentDesc desc then |amount| else -|amount|
        some (mkPdfTxn m line desc amount)

inductive ForexStep where
  /-- not all three lookahead lines matched: nothing is attached -/
  | noMatch : ForexStep
  /-- all three matched but `float()` raised (no try/except in the loop) -/
  | crash : ForexStep
  /-- all three matched: the enriched transaction -/
  | enriched : PdfTxn → ForexStep
deriving DecidableEq, Repr

/-- The three-line forex lookahead applied to `lines[i+1..i+3]`:
fields are attached only if all three regexes match. -/
def forexLookahead (t : PdfTxn) (l1 l2 l3 : List Char) : ForexStep :=
  match origAmtCapture (pyStrip l1), currencyCapture (pyStrip l2),
      rateCapture (pyStrip l3) with
  | some oa, some cc, some er =>
    match pyFloat (oa.filter (fun c => c ≠ ',')), pyFloat er with
    | some oav, some erv =>
      .enriched
        { t with
          original_amount := some oav
          original_currency := some cc
          exchange_rate := some erv
          has_forex := true }
    | _, _ => .crash
  | _, _, _ => .noMatch

/-- The `while i < len(lines)` loop of `parse_capital_one_transactions`.
`none` models an uncaught `ValueError` from `float(...)` on a forex line.
A successful forex lookahead advances the index past the three consumed
lines (`i += 3` plus the loop's `i += 1`); every other branch advances by
one line, and the lookahead runs only `if i + 3 < len(lines)`. -/
def parseCapLines : List (List Char) → Option (List PdfTxn)
  | [] => some []
  | l :: rest =>
    match classifyCapLine l with
    | none => parseCapLines rest
    | some t =>
      match rest with
      | l1 :: l2 :: l3 :: rest' =>
        match forexLookahead t l1 l2 l3 with
        | .noMatch => (parseCapLines (l1 :: l2 :: l3 :: rest')).map (fun ts => t :: ts)
        | .crash => none
        | .enriched t' => (parseCapLines rest').map (fun ts => t' :: ts)
      | [] => (parseCapLines []).map (fun ts => t :: ts)
      | [l1] => (parseCapLines [l1]).map (fun ts => t :: ts)
      | [l1, l2] => (parseCapLines [l1, l2]).map (fun ts => t :: ts)
termination_by lines => lines.length
decreasing_by all_goals simp_arith

/-- Row headers that `parse_capital_one_transactions` skips outright. -/
def capOneRowHeaders : List (List Char) :=
  ["transactions".data, "transactions (continued)".data,
   "trans date post date description amount".data]

/-- Function `parse_capital_one_transactions(table)`: each row contributes the parse of
its first cell's text block (rows with a falsy first cell and plain header
rows are skipped). -/
def parse_capital_one_transactions : List (List (List Char)) → Option (List PdfTxn)
  | [] => some []
  | row :: table =>
    match row with
    | [] => parse_capital_one_transactions table
    | cell :: _ =>
      if cell.isEmpty then parse_capital_one_transactions table
      else
        let text := pyStrip cell
        if capOneRowHeaders.contains (lowerStr text) then
          parse_capital_one_transactions table
        else
          match parseCapLines (splitNl text), parse_capital_one_transactions table with
          | some ts, some rest => some (ts ++ rest)
          | _, _ => none

/-! ## `camelot_processor.py`: `parse_capital_one_transaction_row` -/

/-- Keyword test: any of the (lower-case) keywords occurs in the lower-cased
description. -/
def anyKw (desc : List Char) (kws : List String) : Bool :=
  kws.any (fun k => infixOf k.data (lowerStr desc))

/-- Function `categorize_transaction` of `camelot_processor.py`: fixed priority order,
first hit wins. -/
def camelotCategorize (description : List Char) : String :=
  if anyKw description ["tax", "franchise tax board"] then "Taxes"
  else if anyKw description ["centro inmobiliario", "wood city"] then "Business"
  else if anyKw description ["restaurant", "taco bell", "uber eats", "coco ichibanya",
      "carniceria", "fruteria", "churrascaria", "panera", "tejate"] then "Dining"
  else if anyKw description ["uber trip", "exxon", "chevron", "jiffy lube", "76", "mirus"] then
    "Transportation"
  else if anyKw description ["7-eleven", "oxxo", "wal-mart", "walmart"] then "Groceries"
  else if anyKw description ["crunchyroll", "netflix", "google", "youtube", "coursera",
      "freetaxusa"] then "Subscriptions"
  else if anyKw description ["chopo"] then "Healthcare"
  else if anyKw description ["ocean rainbow", "followyourlegend", "farm roma"] then "Shopping"
  else if anyKw description ["motel"] then "Lodging"
  else if anyKw description ["gas tijuan", "otay mesa", "compania gas"] then "Utilities"
  else if anyKw description ["payment", "pym", "capital one mobile"] then "Payment"
  else "Other"

/-- Payment test of `parse_capital_one_transaction_row`:
`"PAYMENT" in description.upper() or "PYM" in description.upper()`. -/
def camelotIsPayment (desc : List Char) : Bool :=
  infixOf "PAYMENT".data (upperStr desc) || infixOf "PYM".data (upperStr desc)

/-- Pattern `^(Jan|Feb|Mar|Apr|May|Jun|Jul|Aug|Sep|Oct|Nov|Dec)\s+\d{1,2}$`: month
number and day if the string matches. -/
def monthNames : List (String × Nat) :=
  [("Jan", 1), ("Feb", 2), ("Mar", 3), ("Apr", 4), ("May", 5), ("Jun", 6),
   ("Jul", 7), ("Aug", 8), ("Sep", 9), ("Oct", 10), ("Nov", 11), ("Dec", 12)]

def monDDMatch (cs : List Char) : Option (Nat × Nat) :=
  (monthNames.find? (fun p => p.1.data.isPrefixOf cs)).bind (fun p =>
    let rest := cs.drop 3
    let w := rest.takeWhile isWsChar
    if w.isEmpty then none
    else
      let d := rest.drop w.length
      if (d.length = 1 ∨ d.length = 2) ∧ d.all isDigitChar then some (p.2, natVal d)
      else none)

/-- Days per month in 2025 (not a leap year); `datetime.strptime` raises on a
day outside the month, which `parse_capital_one_transaction_row` catches and
turns into `None`. -/
def daysInMonth2025 : Nat → Nat
  | 1 => 31 | 2 => 28 | 3 => 31 | 4 => 30 | 5 => 31 | 6 => 30
  | 7 => 31 | 8 => 31 | 9 => 30 | 10 => 31 | 11 => 30 | 12 => 31
  | _ => 0

def pad2 (n : Nat) : String := if n < 10 then "0" ++ toString n else toString n

/-- A transaction dict returned by `parse_capital_one_transaction_row`. -/
structure CamTxn where
  date : String
  description : List Char
  amount : ℚ
  type : String
  category : String
  bank_type : String
  extraction_method : String
deriving DecidableEq, Repr

/-- Function `parse_capital_one_transaction_row` (position-based access branch): the
row's cells have already been rendered to (stripped) strings. -/
def parse_capital_one_transaction_row (row : List (List Char)) : Option CamTxn :=
  let row_data := row.map pyStrip
  if row_data.length < 6 then none
  else
    let trans_date := row_data.getD 0 []
    let description := row_data.getD 2 []
    let amount_str := row_data.getD 5 []
    if trans_date.isEmpty ∨ trans_date = "nan".data ∨ (monDDMatch trans_date).isNone ∨
        description.isEmpty ∨ description = "nan".data ∨
        amount_str.isEmpty ∨ amount_str = "nan".data ∨ ¬amount_str.contains '$' then
      none
    else
      match monDDMatch trans_date with
      | none => none
      | some (month, day) =>
        if trans_date.length ≤ 6 then
          if 1 ≤ day ∧ day ≤ daysInMonth2025 month then
            let date_str := "2025-" ++ pad2 month ++ "-" ++ pad2 day
            let is_payment := camelotIsPayment description
            let amount_clean := amount_str.filter
              (fun c => isDigitChar c || c = '.' || c = '-')
            if amount_clean.isEmpty then none
            else
              match pyFloat amount_clean with
              | none => none
              | some a =>
                let amount := if is_payment then |a| else -|a|
                let description_clean := collapseWs (pyStrip
                  (replaceAll "*".data " ".data (replaceAll "TST*".data [] description)))
                some
                  { date := date_str
                    description := description_clean
                    amount := amount
                    type := if is_payment then "payment" else "purchase"
                    category :=
                      if is_payment then "Payment" else camelotCategorize description_clean
                    bank_type := "capital_one"
                    extraction_method := "camelot_table_fixed" }
          else none
        else none

/-! ## `camelot_processor.py`: table accuracy filter and extraction method -/

/-- A table as detected by camelot: its parsing-report accuracy and the
result of `clean_table_dataframe` on its dataframe. -/
structure DetectedTable where
  accuracy : ℚ
  cleaned : List (List (List Char))
deriving DecidableEq, Repr

/-- The loop of `extract_tables_with_camelot`: a table is used only when
`table.parsing_report["accuracy"] > 50` and its cleaned dataframe is
non-empty. -/
def extract_tables_with_camelot (ts : List DetectedTable) : List (List (List (List Char))) :=
  ts.filterMap (fun t =>
    if 50 < t.accuracy ∧ ¬t.cleaned.isEmpty then some t.cleaned else none)

/-- Function `process_pdf`: if camelot produced tables they are parsed
(`extraction_method = "camelot_tables"`), otherwise the processor falls back
to pdfminer raw-text scanning (`extraction_method = "pdfminer_text"`). -/
def processPdfExtractionMethod (ts : List DetectedTable) : String :=
  if ¬(extract_tables_with_camelot ts).isEmpty then "camelot_tables" else "pdfminer_text"

/-! ## `camelot_processor.py`: deduplication -/

/-- The fields of a transaction dict consulted by `_transactions_match`. -/
structure DTxn where
  date : String
  amount : ℚ
  description : List Char
deriving DecidableEq, Repr

/-- Words removed by `_clean_description_for_matching`. -/
def commonWordsList : List (List Char) :=
  ["purchase".data, "payment".data, "debit".data, "credit".data, "card".data,
   "transaction".data, "pos".data, "online".data, "recurring".data,
   "automatic".data, "auth".data, "pending".data]

/-- Full-string membership in `\d{1,2}/\d{1,2}(/\d{2,4})?` (used end-anchored:
the tested string is a suffix of the description). -/
def suffixDatePat (cs : List Char) : Bool :=
  let d1 := cs.takeWhile isDigitChar
  (d1.length = 1 || d1.length = 2) &&
    match cs.drop d1.length with
    | '/' :: r1 =>
      let d2 := r1.takeWhile isDigitChar
      (d2.length = 1 || d2.length = 2) &&
        match r1.drop d2.length with
        | [] => true
        | '/' :: r2 => r2.all isDigitChar && (2 ≤ r2.length && r2.length ≤ 4)
        | _ => false
    | _ => false

/-- Python `re.sub(r"\d{1,2}/\d{1,2}(/\d{2,4})?$", "", s)`: drop the leftmost
end-anchored date suffix, if any. -/
def stripDateSuffix (cs : List Char) : List Char :=
  match (List.range (cs.length + 1)).find? (fun s => suffixDatePat (cs.drop s)) with
  | some s => cs.take s
  | none => cs

/-- Python `re.sub(r"\d{4,}$", "", s)`: drop a trailing run of four or more digits. -/
def stripTrailingNum (cs : List Char) : List Char :=
  match (List.range (cs.length + 1)).find?
      (fun s => (cs.drop s).all isDigitChar && 4 ≤ cs.length - s) with
  | some s => cs.take s
  | none => cs

/-- Python `str.isdigit()` (ASCII): non-empty and all digits. -/
def pyIsDigit (cs : List Char) : Bool := ¬cs.isEmpty && cs.all isDigitChar

/-- Function `_clean_description_for_matching`. -/
def clean_description_for_matching (description : List Char) : List Char :=
  let cleaned := stripTrailingNum (stripDateSuffix description)
  let filtered := (pySplit cleaned).filterMap (fun w =>
    let wc := (lowerStr w).filter isWordChar
    if 3 ≤ wc.length ∧ wc ∉ commonWordsList ∧ ¬pyIsDigit wc then some wc else none)
  List.intercalate [' '] (filtered.take 3)

/-- Function `_transactions_match`.  The float literal `0.6` is modelled as `3/5`:
the cleaned descriptions have at most three words, and for
`min ∈ {0,1,2,3}` the comparison `count ≥ min * 0.6` under IEEE doubles
agrees with the rational one. -/
def transactions_match (t1 t2 : DTxn) (tolerance : ℚ) : Bool :=
  if t1.date ≠ t2.date then false
  else if tolerance < |t1.amount - t2.amount| then false
  else
    let desc1 := pyStrip (lowerStr t1.description)
    let desc2 := pyStrip (lowerStr t2.description)
    if desc1 = desc2 then true
    else if 0 < desc1.length ∧ 0 < desc2.length then
      let shorter := if desc1.length < desc2.length then desc1 else desc2
      let longer := if desc1.length < desc2.length then desc2 else desc1
      if 10 ≤ shorter.length ∧ infixOf shorter longer then true
      else
        let c1 := clean_description_for_matching desc1
        let c2 := clean_description_for_matching desc2
        if ¬c1.isEmpty ∧ ¬c2.isEmpty ∧ 5 ≤ c1.length then
          if c1 = c2 then true
          else
            let w1 := (pySplit c1).dedup
            let w2 := (pySplit c2).dedup
            let common := w1.filter (fun w => w ∈ w2)
            decide (2 ≤ common.length) &&
              decide ((min w1.length w2.length : ℚ) * (3 / 5) ≤ (common.length : ℚ))
        else false
    else false

/-- The accumulator loop of `deduplicate_transactions`: `acc` is
`unique_transactions` (in order); a candidate matching any accepted
transaction is dropped. -/
def dedupAux (tol : ℚ) (acc : List DTxn) : List DTxn → List DTxn
  | [] => acc
  | t :: rest =>
    if acc.any (fun e => transactions_match t e tol) then dedupAux tol acc rest
    else dedupAux tol (acc ++ [t]) rest

/-- Function `deduplicate_transactions(transactions, enable_dedup, match_tolerance)`. -/
def deduplicate_transactions (ts : List DTxn) (enable_dedup : Bool) (tol : ℚ) : List DTxn :=
  if ¬enable_dedup ∨ ts.isEmpty then ts else dedupAux tol [] ts

/-! ## Summaries: `generate_summary` (camelot), `process_bank_pdf`
(pdf-processor MCP server) and `process_file_with_processor` (API server) -/

/-- The fields of a transaction dict consulted by the summary producers. -/
structure STxn where
  date : String
  amount : ℚ
  category : String
deriving DecidableEq, Repr

/-- Python `min` over a non-empty sequence, as a left fold. -/
def pyMin [LinearOrder α] (x : α) (xs : List α) : α := xs.foldl min x

def pyMax [LinearOrder α] (x : α) (xs : List α) : α := xs.foldl max x

/-- One step of the `category_stats` dict construction: initialise a missing
key, then `count += 1; total += amount` (dicts preserve insertion order). -/
def addCat : List (String × Nat × ℚ) → String → ℚ → List (String × Nat × ℚ)
  | [], c, a => [(c, 1, a)]
  | (c', n, q) :: rest, c, a =>
    if c' = c then (c', n + 1, q + a) :: rest else (c', n, q) :: addCat rest c a

def lookupCat : List (String × Nat × ℚ) → String → Option (Nat × ℚ)
  | [], _ => none
  | (c', n, q) :: rest, c => if c' = c then some (n, q) else lookupCat rest c

/-- Function `generate_summary` of `camelot_processor.py`.  On an empty list the code
returns the dict `{"total_transactions": 0}` with every other key absent,
modelled as `none`. -/
structure CamSummary where
  total_transactions : Nat
  net_amount : ℚ
  total_debits : ℚ
  total_credits : ℚ
  category_breakdown : List (String × Nat × ℚ)
  date_range : Option (String × String)
deriving DecidableEq, Repr

def generate_summary (ts : List STxn) : Option CamSummary :=
  match ts with
  | [] => none
  | t0 :: rest =>
    some
      { total_transactions := ts.length
        net_amount := (ts.map (·.amount)).sum
        total_debits := ((ts.filter (fun t => t.amount < 0)).map (fun t => |t.amount|)).sum
        total_credits := ((ts.filter (fun t => 0 < t.amount)).map (fun t => t.amount)).sum
        category_breakdown := ts.foldl (fun acc t => addCat acc t.category t.amount) []
        date_range := some (pyMin t0.date (rest.map (·.date)), pyMax t0.date (rest.map (·.date))) }

/-- The all-zero summary that `process_pdf` substitutes when no transactions
were extracted (or the summary lacks `net_amount`). -/
def zeroCamSummary : CamSummary :=
  { total_transactions := 0, net_amount := 0, total_debits := 0, total_credits := 0,
    category_breakdown := [], date_range := none }

/-- The summary stage of `process_pdf`:
`if not transactions or not summary or "net_amount" not in summary`. -/
def camelotProcessPdfSummary (ts : List STxn) : CamSummary :=
  match generate_summary ts with
  | none => zeroCamSummary
  | some s => if ts.isEmpty then zeroCamSummary else s

/-- Function `get_date_range` of `pdf_processor_server.py`. -/
structure DateRange where
  start : Option String
  stop : Option String
  count : Option Nat
deriving DecidableEq, Repr

def get_date_range (ts : List STxn) : DateRange :=
  if ts.isEmpty then ⟨none, none, none⟩
  else
    match (ts.map (·.date)).filter (fun d => d ≠ "") with
    | [] => ⟨none, none, none⟩
    | d :: ds => ⟨some (pyMin d ds), some (pyMax d ds), some (d :: ds).length⟩

structure PdfSummary where
  transaction_count : Nat
  total_debits : ℚ
  total_credits : ℚ
  net_amount : ℚ
  date_range : DateRange
deriving DecidableEq, Repr

/-- The result-assembly tail of `process_bank_pdf` (no exception raised):
the summary is computed only `if transactions:`, so with an empty list the
initial empty dict (`none` here) is kept, and `success` is set to `True`
unconditionally. -/
structure PdfResult where
  success : Bool
  transactions : List STxn
  summary : Option PdfSummary
deriving DecidableEq, Repr

def process_bank_pdf_assemble (ts : List STxn) : PdfResult :=
  { success := true
    transactions := ts
    summary :=
      if ts.isEmpty then none
      else
        let total_debits := ((ts.filter (fun t => t.amount < 0)).map (fun t => |t.amount|)).sum
        let total_credits := ((ts.filter (fun t => 0 < t.amount)).map (fun t => t.amount)).sum
        some
          { transaction_count := ts.length
            total_debits := total_debits
            total_credits := total_credits
            net_amount := total_credits - total_debits
            date_range := get_date_range ts } }

/-- The summary block of `process_file_with_processor` in
`api_server_real.py`: income accumulates the strictly positive amounts,
expenses the rest (signed), and `net_amount = total_income + total_expenses`. -/
structure ApiSummary where
  total_income : ℚ
  total_expenses : ℚ
  net_amount : ℚ
  transaction_count : Nat
deriving DecidableEq, Repr

def api_summary (amounts : List ℚ) : ApiSummary :=
  let totals := amounts.foldl
    (fun (p : ℚ × ℚ) a => if 0 < a then (p.1 + a, p.2) else (p.1, p.2 + a)) (0, 0)
  { total_income := totals.1
    total_expenses := totals.2
    net_amount := totals.1 + totals.2
    transaction_count := amounts.length }

/-! ## `csv_processor_enhanced_fixed.py`: the single-header row loop -/

def stripS (s : String) : String := String.mk (pyStrip s.data)

def lowerS (s : String) : String := String.mk (lowerStr s.data)

/-- Python `dict.get(key, default)` on an insertion-ordered dict. -/
def pyGet (d : List (String × String)) (k : String) (dflt : String) : String :=
  match d.find? (fun p => p.1 = k) with
  | some p => p.2
  | none => dflt

/-- Python `key in dict`. -/
def pyHasKey (d : List (String × String)) (k : String) : Bool :=
  (d.find? (fun p => p.1 = k)).isSome

/-- Column-name keyword tables from `EnhancedCSVProcessor.__init__`. -/
def dateColumns : List String :=
  ["date", "trans_date", "trans date", "transaction_date", "transaction date",
   "posting_date", "posting date", "post_date", "post date", "posted_date"]

def descriptionColumns : List String :=
  ["description", "merchant", "payee", "transaction", "details", "memo",
   "reference", "narrative"]

def amountColumns : List String :=
  ["amount", "debit", "credit", "value", "transaction_amount",
   "transaction amount", "net_amount"]

def categoryColumns : List String :=
  ["category", "type", "transaction_type", "transaction type"]

structure ColMap where
  date : Option String
  description : Option String
  amount : Option String
  category : Option String
deriving DecidableEq, Repr

/-- Function `map_columns(headers)`: first header whose lower-cased, stripped text
contains one of the keywords; plus the Navy-Federal special case that an
exact `"Description"` header wins. -/
def map_columns (headers : List String) : ColMap :=
  let pairs := headers.map (fun h => (h, stripS (lowerS h)))
  let findCol := fun (kws : List String) =>
    (pairs.find? (fun p => kws.any (fun d => infixOf d.data p.2.data))).map (·.1)
  { date := findCol dateColumns
    description :=
      if headers.contains "Description" then some "Description"
      else findCol descriptionColumns
    amount := findCol amountColumns
    category := findCol categoryColumns }

/-- Keep only the last `.` of a string (`''.join(parts[:-1]) + '.' + parts[-1]`
applied when there are several); scans the reversed string. -/
def dropDotsAfterFirst : List Char → List Char
  | [] => []
  | c :: t =>
    if c = '.' then c :: t.filter (fun x => x ≠ '.') else c :: dropDotsAfterFirst t

def keepLastDot (cs : List Char) : List Char := (dropDotsAfterFirst cs.reverse).reverse

/-- Function `parse_amount_enhanced`. -/
def parse_amount_enhanced (s : List Char) : ℚ :=
  if s.isEmpty then 0
  else
    let cleaned := s.filter (fun c =>
      isDigitChar c || c = '.' || c = '-' || c = '+' || c = ',' || c = '(' || c = ')')
    let c2 :=
      if cleaned.contains '(' ∧ cleaned.contains ')' then
        '-' :: cleaned.filter (fun c => c ≠ '(' ∧ c ≠ ')')
      else cleaned
    let c3 := c2.filter (fun c => c ≠ ',')
    let c4 := if 2 ≤ c3.count '.' then keepLastDot c3 else c3
    (pyFloat c4).getD 0

/-- Function `_categorize_transaction` of the CSV processor: dict iteration order is
insertion order, first matching category wins. -/
def csvCategorize (description : List Char) : String :=
  if anyKw description ["restaurant", "cafe", "coffee", "food", "dining", "eat",
      "pizza", "uber eats", "doordash"] then "Food & Dining"
  else if anyKw description ["amazon", "walmart", "target", "store", "shop", "mall",
      "retail"] then "Shopping"
  else if anyKw description ["uber", "lyft", "gas", "fuel", "parking", "toll",
      "transit"] then "Transportation"
  else if anyKw description ["movie", "theater", "concert", "game", "netflix",
      "spotify"] then "Entertainment"
  else if anyKw description ["electric", "water", "gas", "internet", "phone",
      "utility"] then "Utilities"
  else if anyKw description ["payment", "transfer", "deposit", "credit", "paypal"] then
    "Payment"
  else if anyKw description ["atm withdrawal", "atm deposit", "cash withdrawal"] then
    "ATM"
  else if anyKw description ["direct deposit", "payroll", "salary"] then "Income"
  else if anyKw description ["fee", "charge", "penalty"] then "Fees"
  else "Other"

/-- A transaction dict built by `process_single_header_csv`. -/
structure CsvTxn where
  date : String
  description : String
  amount : ℚ
  category : String
  confidence : ℚ
  has_forex : Bool
  original_currency : Option String := none
  original_amount : Option ℚ := none
  exchange_rate : Option ℚ := none
  raw_data : List (String × String)
deriving DecidableEq, Repr

/-- The description extracted by the row loop of
`process_single_header_csv`. -/
def csvRowDescription (mapping : ColMap) (rowDict : List (String × String)) : String :=
  match mapping.description with
  | some col => stripS (pyGet rowDict col "Unknown")
  | none => "Unknown"

/-- The amount extracted by the row loop, including the
`Credit Debit Indicator` override. -/
def csvRowAmount (headers : List String) (rowDict : List (String × String))
    (acol : String) : ℚ :=
  let amount0 := parse_amount_enhanced (stripS (pyGet rowDict acol "0")).data
  if (headers.map lowerS).contains "credit debit indicator" then
    let ind := lowerS (stripS (pyGet rowDict "Credit Debit Indicator" ""))
    if ind = "debit" then -|amount0|
    else if ind = "credit" then |amount0|
    else amount0
  else amount0

/-- The category assigned by the row loop. -/
def csvRowCategory (mapping : ColMap) (rowDict : List (String × String)) : String :=
  match mapping.category with
  | some col => stripS (pyGet rowDict col "Other")
  | none => csvCategorize (csvRowDescription mapping rowDict).data

/-- The transaction dict as populated before the forex block. -/
def mkCsvBase (parse_date : String → String) (headers : List String) (mapping : ColMap)
    (rowDict : List (String × String)) (dcol acol : String) : CsvTxn :=
  { date := parse_date (stripS (pyGet rowDict dcol ""))
    description := csvRowDescription mapping rowDict
    amount := csvRowAmount headers rowDict acol
    category := csvRowCategory mapping rowDict
    confidence := 1
    has_forex := false
    raw_data := rowDict.filter (fun p => stripS p.2 ≠ "") }

/-- Step 1 of the forex block: record the instructed currency. -/
def csvForexT1 (rowDict : List (String × String)) (base : CsvTxn) : CsvTxn :=
  { base with original_currency := some (stripS (pyGet rowDict "Instructed Currency" "")) }

/-- Step 2: fill `original_amount` when the `Instructed Amount` column
exists (even if its cell is empty). -/
def csvForexT2 (rowDict : List (String × String)) (t1 : CsvTxn) : CsvTxn :=
  if pyHasKey rowDict "Instructed Amount" then
    { t1 with
      original_amount := some (parse_amount_enhanced (pyGet rowDict "Instructed Amount" "").data) }
  else t1

/-- Step 3: fill `exchange_rate` from a non-empty, parseable
`Currency Exchange Rate` cell (a `ValueError` is swallowed by
`except: pass`). -/
def csvForexT3 (rowDict : List (String × String)) (t2 : CsvTxn) : CsvTxn :=
  if pyHasKey rowDict "Currency Exchange Rate" then
    if stripS (pyGet rowDict "Currency Exchange Rate" "") ≠ "" then
      match pyFloat (stripS (pyGet rowDict "Currency Exchange Rate" "")).data with
      | some r => { t2 with exchange_rate := some r }
      | none => t2
    else t2
  else t2

/-- The forex block of the row loop: `original_currency` requires a
non-empty instructed currency other than `USD`; `original_amount` and
`exchange_rate` are filled from their columns when present; `has_forex` is
set only when both `original_currency` and `exchange_rate` were set. -/
def csvForexEnrich (rowDict : List (String × String)) (base : CsvTxn) : CsvTxn :=
  if pyHasKey rowDict "Instructed Currency" ∧
      pyGet rowDict "Instructed Currency" "" ≠ "" then
    if stripS (pyGet rowDict "Instructed Currency" "") ≠ "" ∧
        stripS (pyGet rowDict "Instructed Currency" "") ≠ "USD" then
      if (csvForexT3 rowDict (csvForexT2 rowDict (csvForexT1 rowDict base))).original_currency.isSome &&
          (csvForexT3 rowDict (csvForexT2 rowDict (csvForexT1 rowDict base))).exchange_rate.isSome then
        { csvForexT3 rowDict (csvForexT2 rowDict (csvForexT1 rowDict base)) with
          has_forex := true }
      else csvForexT3 rowDict (csvForexT2 rowDict (csvForexT1 rowDict base))
    else base
  else base

/-- The body of the `for row_dict in reader` loop of
`process_single_header_csv`; `none` models `continue` (the row yields no
transaction).  `parse_date` stands for `parse_date_with_year`, a total
`str → str` function whose value never influences control flow here. -/
def process_csv_row (parse_date : String → String) (headers : List String)
    (mapping : ColMap) (rowDict : List (String × String)) : Option CsvTxn :=
  match mapping.date with
  | none => none
  | some dcol =>
    if stripS (pyGet rowDict dcol "") = "" then none
    else
      match mapping.amount with
      | none => none
      | some acol =>
        if csvRowAmount headers rowDict acol = 0 then none
        else some (csvForexEnrich rowDict
          (mkCsvBase parse_date headers mapping rowDict dcol acol))

/-! ## Concrete fixtures for witnesses and counterexamples -/

/-- Example 1 of the spec: the primary line of the Uber forex block. -/
def uberLine : List Char := "Apr 15 Apr 16 UBER* EATSCIUDAD DE MEXCDM $26.03".data

/-- Example 1 of the spec: the four-line text block. -/
def uberBlock : List Char :=
  "Apr 15 Apr 16 UBER* EATSCIUDAD DE MEXCDM $26.03\n$518.82\nMXN\n19.931617365 Exchange Rate".data

/-- The transaction the text-block parser produces for `uberBlock`. -/
def uberTxn : PdfTxn :=
  { date := "Apr 16".data
    transaction_date := "Apr 15".data
    post_date := "Apr 16".data
    description := "UBER* EATSCIUDAD DE MEXCDM".data
    amount := -(2603 / 100)
    bank := "capital_one".data
    raw_line := uberLine
    original_amount := some (51882 / 100)
    original_currency := some "MXN".data
    exchange_rate := some (19931617365 / 1000000000)
    has_forex := true }

/-- The Uber transaction as a six-column camelot row. -/
def uberRow : List (List Char) :=
  ["Apr 15".data, "Apr 16".data, "UBER* EATSCIUDAD DE MEXCDM".data, [], [], "$26.03".data]

/-- A forex block whose bare currency-code line is `USD`. -/
def usdLines : List (List Char) :=
  ["Apr 15 Apr 16 FOO BAR $26.03".data, "$518.82".data, "USD".data,
   "1.5 Exchange Rate".data]

/-- Example 2 of the spec. -/
def pymtLine : List Char := "Apr 17 Apr 17 CAPITAL ONE MOBILE PYMT $1,000.00".data

/-- Example 2 as a six-column camelot row. -/
def pymtRow : List (List Char) :=
  ["Apr 17".data, "Apr 17".data, "CAPITAL ONE MOBILE PYMT".data, [], [], "$1,000.00".data]

/-- The transaction the text-block parser produces for `pymtLine`. -/
def pymtTxn : PdfTxn :=
  { date := "Apr 17".data
    transaction_date := "Apr 17".data
    post_date := "Apr 17".data
    description := "CAPITAL ONE MOBILE PYMT".data
    amount := 1000
    bank := "capital_one".data
    raw_line := pymtLine }

/-- A camelot row whose description contains the marker `PMT` but neither
`PAYMENT` nor `PYM`. -/
def cardPmtRow : List (List Char) :=
  ["Apr 17".data, "Apr 17".data, "CARD PMT".data, [], [], "$50.00".data]

/-- What `parse_capital_one_transaction_row` produces for `cardPmtRow`. -/
def cardPmtTxn : CamTxn :=
  { date := "2025-04-17"
    description := "CARD PMT".data
    amount := -50
    type := "purchase"
    category := "Other"
    bank_type := "capital_one"
    extraction_method := "camelot_table_fixed" }

def csvHeaders3 : List String := ["Date", "Description", "Amount"]

/-- A CSV row whose description cell is present but empty. -/
def csvEmptyDescRow : List (String × String) :=
  [("Date", "2024-01-01"), ("Description", ""), ("Amount", "-5.75")]

/-- A CSV row with a forex currency column, a zero exchange rate and no
`Instructed Amount` column. -/
def csvForexZeroRow : List (String × String) :=
  [("Date", "2024-01-01"), ("Description", "X"), ("Amount", "-5.75"),
   ("Instructed Currency", "EUR"), ("Currency Exchange Rate", "0")]

/-- A CSV row with a complete forex column triple. -/
def csvForexFullRow : List (String × String) :=
  [("Date", "2024-01-01"), ("Description", "X"), ("Amount", "-5.75"),
   ("Instructed Currency", "MXN"), ("Instructed Amount", "518.82"),
   ("Currency Exchange Rate", "19.93")]

/-- The Uber transaction before forex enrichment. -/
def uberTxnPlain : PdfTxn :=
  { uberTxn with
    original_amount := none
    original_currency := none
    exchange_rate := none
    has_forex := false }

/-- The transaction the text-block parser produces for `usdLines`. -/
def usdTxn : PdfTxn :=
  { date := "Apr 16".data
    transaction_date := "Apr 15".data
    post_date := "Apr 16".data
    description := "FOO BAR".data
    amount := -(2603 / 100)
    bank := "capital_one".data
    raw_line := "Apr 15 Apr 16 FOO BAR $26.03".data
    original_amount := some (51882 / 100)
    original_currency := some "USD".data
    exchange_rate := some (3 / 2)
    has_forex := true }

/-- The transaction the CSV row loop produces for `csvForexFullRow` under
the identity date parser. -/
def csvMxnTxn : CsvTxn :=
  { date := "2024-01-01"
    description := "X"
    amount := -(23 / 4)
    category := "Other"
    confidence := 1
    has_forex := true
    original_currency := some "MXN"
    original_amount := some (51882 / 100)
    exchange_rate := some (1993 / 100)
    raw_data := csvForexFullRow }

/-- The transaction the CSV row loop produces for `csvEmptyDescRow` under
the identity date parser: its description is the empty string. -/
def csvEmptyDescTxn : CsvTxn :=
  { date := "2024-01-01"
    description := ""
    amount := -(23 / 4)
    category := "Other"
    confidence := 1
    has_forex := false
    raw_data := [("Date", "2024-01-01"), ("Amount", "-5.75")] }

/-- Example 5 of the spec: a single detected table at 40% accuracy. -/
def tbl40 : DetectedTable := ⟨40, [["x".data]]⟩

/-- A small summary-input list: two debits and one credit. -/
def sumTs3 : List STxn :=
  [⟨"2024-01-02", -5, "Other"⟩, ⟨"2024-01-01", 7, "Payment"⟩,
   ⟨"2024-01-03", -1, "Other"⟩]

/-- Two literally equal transactions and one with a different date: the
match relation is an equivalence on these. -/
def eqA : DTxn := ⟨"2024-01-01", -50, "same merchant".data⟩

def eqU : DTxn := ⟨"2024-01-02", -50, "same merchant".data⟩

/-- Three transactions on which the fuzzy description match is not
transitive: the long description contains both short ones, which share
nothing with each other. -/
def dupA : DTxn := ⟨"2024-01-01", -50, "xxxxxxxxxx".data⟩

def dupB : DTxn := ⟨"2024-01-01", -50, "xxxxxxxxxx yyyyyyyyyy".data⟩

def dupC : DTxn := ⟨"2024-01-01", -50, "yyyyyyyyyy".data⟩

/-! ## Shape lemmas for the text-block transaction loop -/

/-- A transaction built by `classifyCapLine` has no forex fields, and its
sign is decided by the payment markers on its (cleaned) description. -/
theorem classifyCapLine_shape (l : List Char) (t : PdfTxn)
    (h : classifyCapLine l = some t) :
    t.has_forex = false ∧ t.original_amount = none ∧ t.original_currency = none ∧
      t.exchange_rate = none ∧
      (isPaymentDesc t.description = true → 0 < t.amount) ∧
      (isPaymentDesc t.description = false → t.amount < 0) := by
  simp only [classifyCapLine] at h
  split at h
  · exact absurd h (by simp)
  split at h
  · exact absurd h (by simp)
  split at h
  · exact absurd h (by simp)
  next m hm =>
    split at h
    · exact absurd h (by simp)
    next hamt =>
      rw [Option.some_inj] at h
      subst h
      refine ⟨rfl, rfl, rfl, rfl, ?_, ?_⟩ <;> intro hp <;> simp only [mkPdfTxn] at hp ⊢
      · rw [hp, if_pos rfl]
        exact abs_pos.mpr hamt
      · rw [hp]
        simp only [Bool.false_eq_true, if_false, neg_neg]
        simpa using abs_pos.mpr hamt

/-- An enriched transaction from the forex lookahead: all three lookahead
regexes matched and all three forex fields are populated; description and
amount are untouched. -/
theorem forexLookahead_enriched (t : PdfTxn) (l1 l2 l3 : List Char) (t' : PdfTxn)
    (h : forexLookahead t l1 l2 l3 = .enriched t') :
    (origAmtCapture (pyStrip l1)).isSome = true ∧
      (currencyCapture (pyStrip l2)).isSome = true ∧
      (rateCapture (pyStrip l3)).isSome = true ∧
      t'.has_forex = true ∧ t'.original_amount.isSome = true ∧
      t'.original_currency.isSome = true ∧ t'.exchange_rate.isSome = true ∧
      t'.description = t.description ∧ t'.amount = t.amount := by
  unfold forexLookahead at h
  split at h
  next oa cc er h1 h2 h3 =>
    split at h
    · rw [ForexStep.enriched.injEq] at h
      subst h
      simp [h1, h2, h3]
    · exact absurd h (by simp)
  next => exact absurd h (by simp)

/-- The lookahead declines (attaches nothing) exactly when one of the three
line regexes fails. -/
theorem forexLookahead_noMatch_iff (t : PdfTxn) (l1 l2 l3 : List Char) :
    forexLookahead t l1 l2 l3 = .noMatch ↔
      origAmtCapture (pyStrip l1) = none ∨ currencyCapture (pyStrip l2) = none ∨
        rateCapture (pyStrip l3) = none := by
  unfold forexLookahead
  constructor
  · intro h
    split at h
    next oa cc er h1 h2 h3 =>
      split at h <;> simp_all
    next hne =>
      rcases ho : origAmtCapture (pyStrip l1) with _ | oa
      · exact Or.inl rfl
      rcases hc : currencyCapture (pyStrip l2) with _ | cc
      · exact Or.inr (Or.inl rfl)
      rcases hrr : rateCapture (pyStrip l3) with _ | er
      · exact Or.inr (Or.inr rfl)
      exact (hne oa cc er ho hc hrr).elim
  · intro h
    split
    next oa cc er h1 h2 h3 =>
      rw [h1, h2, h3] at h
      rcases h with h | h | h <;> exact absurd h (by simp)
    next => rfl

/-- One step of the loop on a transaction line with at least three lines of
lookahead available. -/
theorem parseCapLines_step (tl l1 l2 l3 : List Char) (rest : List (List Char))
    (t : PdfTxn) (hc : classifyCapLine tl = some t) :
    parseCapLines (tl :: l1 :: l2 :: l3 :: rest) =
      match forexLookahead t l1 l2 l3 with
      | .noMatch => (parseCapLines (l1 :: l2 :: l3 :: rest)).map (fun ts => t :: ts)
      | .crash => none
      | .enriched t' => (parseCapLines rest).map (fun ts => t' :: ts) := by
  rw [parseCapLines]
  simp only [hc]

/-- C1: in the two-date text-block parser, the forex lookahead is
all-or-nothing.  If any of the three lookahead regexes
(amount line, bare currency-code line, exchange-rate line) fails, the
transaction is emitted without forex fields (`has_forex = false`, all three
fields absent) and the loop continues at the next line; if the lookahead
succeeds (all three match), the enriched transaction carries
`has_forex = true`, and the three consumed lines are skipped outright — the
loop resumes after them, so they can never produce transactions of their
own. -/
theorem c1_forex_lookahead_all_or_nothing (tl l1 l2 l3 : List Char)
    (rest : List (List Char)) (t : PdfTxn) (hc : classifyCapLine tl = some t) :
    ((origAmtCapture (pyStrip l1) = none ∨ currencyCapture (pyStrip l2) = none ∨
        rateCapture (pyStrip l3) = none) →
      parseCapLines (tl :: l1 :: l2 :: l3 :: rest) =
          (parseCapLines (l1 :: l2 :: l3 :: rest)).map (fun ts => t :: ts) ∧
        t.has_forex = false ∧ t.original_amount = none ∧
        t.original_currency = none ∧ t.exchange_rate = none) ∧
    (∀ t', forexLookahead t l1 l2 l3 = .enriched t' →
      parseCapLines (tl :: l1 :: l2 :: l3 :: rest) =
          (parseCapLines rest).map (fun ts => t' :: ts) ∧
        (origAmtCapture (pyStrip l1)).isSome = true ∧
        (currencyCapture (pyStrip l2)).isSome = true ∧
        (rateCapture (pyStrip l3)).isSome = true ∧ t'.has_forex = true) := by
  obtain ⟨hf, hoa, hoc, her, -, -⟩ := classifyCapLine_shape tl t hc
  constructor
  · intro hpartial
    have hnm : forexLookahead t l1 l2 l3 = .noMatch :=
      (forexLookahead_noMatch_iff t l1 l2 l3).mpr hpartial
    refine ⟨?_, hf, hoa, hoc, her⟩
    rw [parseCapLines_step tl l1 l2 l3 rest t hc, hnm]
  · intro t' he
    obtain ⟨h1, h2, h3, h4, -, -, -, -, -⟩ := forexLookahead_enriched t l1 l2 l3 t' he
    refine ⟨?_, h1, h2, h3, h4⟩
    rw [parseCapLines_step tl l1 l2 l3 rest t hc, he]

/-- Witness for C1 at the concrete Example-1 lines: the full lookahead match
consumes the three forex lines, and breaking the currency line spoils the
whole lookahead. -/
theorem c1_witness :
    (parseCapLines ["Apr 15 Apr 16 UBER* EATSCIUDAD DE MEXCDM $26.03".data,
        "$518.82".data, "MXN".data, "19.931617365 Exchange Rate".data] =
      (parseCapLines []).map (fun ts => uberTxn :: ts)) ∧
    (parseCapLines ["Apr 15 Apr 16 UBER* EATSCIUDAD DE MEXCDM $26.03".data,
        "$518.82".data, "mxn".data, "19.931617365 Exchange Rate".data] =
      (parseCapLines ["$518.82".data, "mxn".data,
          "19.931617365 Exchange Rate".data]).map (fun ts => uberTxnPlain :: ts)) := by
  constructor
  · exact ((c1_forex_lookahead_all_or_nothing
      "Apr 15 Apr 16 UBER* EATSCIUDAD DE MEXCDM $26.03".data
      "$518.82".data "MXN".data "19.931617365 Exchange Rate".data []
      _ (by with_unfolding_all rfl)).2 uberTxn (by with_unfolding_all rfl)).1
  · exact ((c1_forex_lookahead_all_or_nothing
      "Apr 15 Apr 16 UBER* EATSCIUDAD DE MEXCDM $26.03".data
      "$518.82".data "mxn".data "19.931617365 Exchange Rate".data []
      _ (by with_unfolding_all rfl)).1
      (Or.inr (Or.inl (by with_unfolding_all rfl)))).1

/-- C4, counterexample: on Example 1 the text-block parser emits the raw
post-date string `"Apr 16"` as the `date` field — not the ISO-8601 string
`"2025-04-16"` the claim asserts (this parser performs no year completion or
ISO conversion at all). -/
theorem c4_counterexample :
    parse_capital_one_transactions [[uberBlock]] = some [uberTxn] ∧
      uberTxn.date ≠ "2025-04-16".data := by
  constructor
  · with_unfolding_all rfl
  · decide

/-- C4, amended: parsing Example 1 yields exactly one transaction whose
`date` field is the raw post-date string `"Apr 16"`, whose description
contains `UBER`, with amount `-26.03`, `has_forex = true`,
`original_amount = 518.82`, `original_currency = "MXN"` and
`exchange_rate = 19.931617365`; the camelot row parser, by contrast, does
convert to ISO-8601 with assumed year 2025, but from the transaction date,
giving `"2025-04-15"` for the same row. -/
theorem c4_amended :
    parse_capital_one_transactions [[uberBlock]] = some [uberTxn] ∧
      uberTxn.date = "Apr 16".data ∧
      infixOf "UBER".data uberTxn.description = true ∧
      uberTxn.amount = -(2603 / 100) ∧
      uberTxn.has_forex = true ∧
      uberTxn.original_amount = some (51882 / 100) ∧
      uberTxn.original_currency = some "MXN".data ∧
      uberTxn.exchange_rate = some (19931617365 / 1000000000) ∧
      (parse_capital_one_transaction_row uberRow).map (fun t => t.date) =
        some "2025-04-15" := by
  refine ⟨by with_unfolding_all rfl, rfl, by decide, rfl, rfl, rfl, rfl, rfl, ?_⟩
  with_unfolding_all rfl

/-- Every transaction emitted by the text-block loop obeys the payment-marker
sign policy, and carries all three forex fields whenever `has_forex` is
set. -/
theorem parseCapLines_mem (lines : List (List Char)) :
    ∀ ts : List PdfTxn, parseCapLines lines = some ts → ∀ t ∈ ts,
      (isPaymentDesc t.description = true → 0 < t.amount) ∧
      (isPaymentDesc t.description = false → t.amount < 0) ∧
      (t.has_forex = true →
        t.original_amount.isSome = true ∧ t.original_currency.isSome = true ∧
          t.exchange_rate.isSome = true) := by
  induction lines using parseCapLines.induct with
  | case1 =>
    intro ts h t ht
    rw [parseCapLines] at h
    rw [Option.some_inj] at h
    subst h
    simp at ht
  | case2 l rest hc ih =>
    intro ts h t ht
    rw [parseCapLines] at h
    simp only [hc] at h
    exact ih ts h t ht
  | case3 l t0 hc l1 l2 l3 rest' hfx ih =>
    intro ts h t ht
    rw [parseCapLines_step l l1 l2 l3 rest' t0 hc, hfx] at h
    obtain ⟨ts0, hts0, rfl⟩ := Option.map_eq_some'.mp h
    rcases List.mem_cons.mp ht with rfl | htl
    · obtain ⟨hf, -, -, -, h5, h6⟩ := classifyCapLine_shape l t hc
      exact ⟨h5, h6, by simp [hf]⟩
    · exact ih ts0 hts0 t htl
  | case4 l t0 hc l1 l2 l3 rest' hfx =>
    intro ts h t ht
    rw [parseCapLines_step l l1 l2 l3 rest' t0 hc, hfx] at h
    exact absurd h (by simp)
  | case5 l t0 hc l1 l2 l3 rest' a hfx ih =>
    intro ts h t ht
    rw [parseCapLines_step l l1 l2 l3 rest' t0 hc, hfx] at h
    obtain ⟨ts0, hts0, rfl⟩ := Option.map_eq_some'.mp h
    rcases List.mem_cons.mp ht with rfl | htl
    · obtain ⟨-, -, -, hforex, hoa, hoc, her, hdesc, hamt⟩ :=
        forexLookahead_enriched t0 l1 l2 l3 t hfx
      obtain ⟨-, -, -, -, h5, h6⟩ := classifyCapLine_shape l t0 hc
      rw [hdesc, hamt]
      exact ⟨h5, h6, fun _ => ⟨hoa, hoc, her⟩⟩
    · exact ih ts0 hts0 t htl
  | case6 l t0 hc ih =>
    intro ts h t ht
    rw [parseCapLines] at h
    simp only [hc] at h
    obtain ⟨ts0, hts0, rfl⟩ := Option.map_eq_some'.mp h
    rcases List.mem_cons.mp ht with rfl | htl
    · obtain ⟨hf, -, -, -, h5, h6⟩ := classifyCapLine_shape l t hc
      exact ⟨h5, h6, by simp [hf]⟩
    · exact ih ts0 hts0 t htl
  | case7 l t0 hc l1 ih =>
    intro ts h t ht
    rw [parseCapLines] at h
    simp only [hc] at h
    obtain ⟨ts0, hts0, rfl⟩ := Option.map_eq_some'.mp h
    rcases List.mem_cons.mp ht with rfl | htl
    · obtain ⟨hf, -, -, -, h5, h6⟩ := classifyCapLine_shape l t hc
      exact ⟨h5, h6, by simp [hf]⟩
    · exact ih ts0 hts0 t htl
  | case8 l t0 hc l1 l2 ih =>
    intro ts h t ht
    rw [parseCapLines] at h
    simp only [hc] at h
    obtain ⟨ts0, hts0, rfl⟩ := Option.map_eq_some'.mp h
    rcases List.mem_cons.mp ht with rfl | htl
    · obtain ⟨hf, -, -, -, h5, h6⟩ := classifyCapLine_shape l t hc
      exact ⟨h5, h6, by simp [hf]⟩
    · exact ih ts0 hts0 t htl

/-- Sign, type and category of a transaction from
`parse_capital_one_transaction_row`, as decided by its payment test
(`PAYMENT` / `PYM`) on the stripped description cell. -/
theorem parse_capital_one_transaction_row_sign (row : List (List Char)) (tx : CamTxn)
    (h : parse_capital_one_transaction_row row = some tx) :
    (camelotIsPayment ((row.map pyStrip).getD 2 []) = true →
      0 ≤ tx.amount ∧ tx.category = "Payment" ∧ tx.type = "payment") ∧
    (camelotIsPayment ((row.map pyStrip).getD 2 []) = false →
      tx.amount ≤ 0 ∧ tx.type = "purchase") := by
  simp only [parse_capital_one_transaction_row] at h
  by_cases hp : camelotIsPayment ((row.map pyStrip).getD 2 []) = true
  case pos =>
    simp only [hp, if_true] at h
    repeat' split at h
    all_goals try exact Option.noConfusion h
    rw [Option.some_inj] at h
    subst h
    exact ⟨fun _ => ⟨abs_nonneg _, rfl, rfl⟩,
      fun hfalse => by rw [hfalse] at hp; exact Bool.noConfusion hp⟩
  case neg =>
    rw [Bool.not_eq_true] at hp
    simp only [hp, Bool.false_eq_true, if_false] at h
    repeat' split at h
    all_goals try exact Option.noConfusion h
    rw [Option.some_inj] at h
    subst h
    refine ⟨fun htrue => by rw [htrue] at hp; exact Bool.noConfusion hp, fun _ => ?_⟩
    exact ⟨neg_nonpos.mpr (abs_nonneg _), rfl⟩

/-- C3, counterexample: the camelot row parser does not treat the bare
marker `PMT` as a payment marker (it tests only `PAYMENT` and `PYM`), so the
row `Apr 17 | Apr 17 | CARD PMT | ... | $50.00` — whose description contains
`PMT` — is emitted with a negative amount, against the claim's "forced
positive". -/
theorem c3_counterexample :
    parse_capital_one_transaction_row cardPmtRow = some cardPmtTxn ∧
      infixOf "PMT".data (upperStr cardPmtTxn.description) = true ∧
      cardPmtTxn.amount < 0 := by
  refine ⟨by with_unfolding_all rfl, by decide, ?_⟩
  show (-50 : ℚ) < 0
  norm_num

/-- C3, amended: in the PDF text-block parser the payment markers are
exactly `PAYMENT`, `PYMT`, `PMT`: a marker forces the emitted amount
positive and its absence forces it negative.  In the camelot row parser the
markers are `PAYMENT` and `PYM` only (so `PYMT` qualifies but a bare `PMT`
does not); a marker forces the amount to `abs(...)` (non-negative) with
category `Payment` and type `payment`, its absence to `-abs(...)`
(non-positive) with type `purchase`.  The line of Example 2 yields
amount `+1000.00` in the text parser, and its row yields `+1000.00` with
category `Payment` in the row parser. -/
theorem c3_amended_sign_policy :
    (∀ (lines : List (List Char)) (ts : List PdfTxn),
      parseCapLines lines = some ts → ∀ t ∈ ts,
        (isPaymentDesc t.description = true → 0 < t.amount) ∧
        (isPaymentDesc t.description = false → t.amount < 0)) ∧
    (∀ (row : List (List Char)) (tx : CamTxn),
      parse_capital_one_transaction_row row = some tx →
        (camelotIsPayment ((row.map pyStrip).getD 2 []) = true →
          0 ≤ tx.amount ∧ tx.category = "Payment" ∧ tx.type = "payment") ∧
        (camelotIsPayment ((row.map pyStrip).getD 2 []) = false →
          tx.amount ≤ 0 ∧ tx.type = "purchase")) ∧
    parseCapLines [pymtLine] = some [pymtTxn] ∧ pymtTxn.amount = 1000 ∧
    parse_capital_one_transaction_row pymtRow =
      some { date := "2025-04-17"
             description := "CAPITAL ONE MOBILE PYMT".data
             amount := 1000
             type := "payment"
             category := "Payment"
             bank_type := "capital_one"
             extraction_method := "camelot_table_fixed" } := by
  refine ⟨?_, ?_, by with_unfolding_all rfl, rfl, by with_unfolding_all rfl⟩
  · intro lines ts h t ht
    obtain ⟨h1, h2, -⟩ := parseCapLines_mem lines ts h t ht
    exact ⟨h1, h2⟩
  · intro row tx h
    exact parse_capital_one_transaction_row_sign row tx h

/-- Witness for C3 at the concrete Example-2 inputs and the `CARD PMT`
row. -/
theorem c3_witness : 0 < pymtTxn.amount ∧ cardPmtTxn.amount ≤ 0 := by
  constructor
  · exact (c3_amended_sign_policy.1 [pymtLine] [pymtTxn]
      (by with_unfolding_all rfl) pymtTxn (by simp)).1 (by decide)
  · exact ((c3_amended_sign_policy.2.1 cardPmtRow cardPmtTxn
      (by with_unfolding_all rfl)).2 (by decide)).1

/-- Forex enrichment of a CSV row: when it sets `has_forex`, the currency
and exchange-rate fields are populated, and the currency is not `USD`. -/
theorem csvForexT2_currency (rowDict : List (String × String)) (t1 : CsvTxn) :
    (csvForexT2 rowDict t1).original_currency = t1.original_currency := by
  unfold csvForexT2; split <;> rfl

theorem csvForexT2_flag (rowDict : List (String × String)) (t1 : CsvTxn) :
    (csvForexT2 rowDict t1).has_forex = t1.has_forex := by
  unfold csvForexT2; split <;> rfl

theorem csvForexT3_currency (rowDict : List (String × String)) (t2 : CsvTxn) :
    (csvForexT3 rowDict t2).original_currency = t2.original_currency := by
  unfold csvForexT3
  split
  · split
    · split <;> rfl
    · rfl
  · rfl

theorem csvForexT3_flag (rowDict : List (String × String)) (t2 : CsvTxn) :
    (csvForexT3 rowDict t2).has_forex = t2.has_forex := by
  unfold csvForexT3
  split
  · split
    · split <;> rfl
    · rfl
  · rfl

theorem csvForexEnrich_forex (rowDict : List (String × String)) (base : CsvTxn)
    (hb : base.has_forex = false) :
    (csvForexEnrich rowDict base).has_forex = true →
      (csvForexEnrich rowDict base).original_currency.isSome = true ∧
      (csvForexEnrich rowDict base).exchange_rate.isSome = true ∧
      (csvForexEnrich rowDict base).original_currency ≠ some "USD" := by
  unfold csvForexEnrich
  split
  case isFalse => intro hf; rw [hb] at hf; exact Bool.noConfusion hf
  split
  case isFalse => intro hf; rw [hb] at hf; exact Bool.noConfusion hf
  case isTrue hcur =>
    split
    case isFalse =>
      intro hf
      rw [csvForexT3_flag, csvForexT2_flag] at hf
      have : (csvForexT1 rowDict base).has_forex = false := hb
      rw [this] at hf
      exact Bool.noConfusion hf
    case isTrue hguard =>
      intro hf
      rw [Bool.and_eq_true] at hguard
      have hcurval :
          (csvForexT3 rowDict (csvForexT2 rowDict (csvForexT1 rowDict base))).original_currency =
            some (stripS (pyGet rowDict "Instructed Currency" "")) := by
        rw [csvForexT3_currency, csvForexT2_currency]
        rfl
      refine ⟨?_, ?_, ?_⟩
      · show (csvForexT3 rowDict (csvForexT2 rowDict (csvForexT1 rowDict base))).original_currency.isSome = true
        exact hguard.1
      · show (csvForexT3 rowDict (csvForexT2 rowDict (csvForexT1 rowDict base))).exchange_rate.isSome = true
        exact hguard.2
      · show (csvForexT3 rowDict (csvForexT2 rowDict (csvForexT1 rowDict base))).original_currency ≠ some "USD"
        rw [hcurval]
        intro hcontra
        rw [Option.some_inj] at hcontra
        exact hcur.2 hcontra

/-- In the CSV row loop, `has_forex` can be set only in the branch guarded by
a non-empty instructed currency different from `USD`, and only when the
exchange-rate field was populated; `original_amount`, however, is filled
only if its column exists. -/
theorem process_csv_row_forex (pd : String → String) (headers : List String)
    (mapping : ColMap) (row : List (String × String)) (t : CsvTxn)
    (h : process_csv_row pd headers mapping row = some t) (hf : t.has_forex = true) :
    t.original_currency.isSome = true ∧ t.exchange_rate.isSome = true ∧
      t.original_currency ≠ some "USD" := by
  simp only [process_csv_row] at h
  repeat' split at h
  all_goals try exact Option.noConfusion h
  rw [Option.some_inj] at h
  subst h
  exact csvForexEnrich_forex _ _ rfl hf

/-- C2, counterexample: `has_forex = true` does not imply the claimed
consistency.  The PDF lookahead accepts `USD` as the bare currency code
(`^([A-Z]{3})$` matches it), and the CSV path accepts a zero exchange rate
and sets `has_forex` even when the `Instructed Amount` column is missing
entirely, so all three of the claim's conjuncts fail on the code. -/
theorem c2_counterexample :
    (parseCapLines usdLines).map
        (fun ts => ts.map (fun t => (t.has_forex, t.original_currency))) =
      some [(true, some "USD".data)] ∧
    (process_csv_row (fun s => s) csvHeaders3 (map_columns csvHeaders3)
          csvForexZeroRow).map
        (fun t => (t.has_forex, t.original_amount, t.exchange_rate)) =
      some (true, none, some 0) := by
  constructor <;> with_unfolding_all rfl

/-- C2, amended: if `has_forex` is true then, in the PDF text-block parser,
all three forex fields are present (but `original_currency` may be `USD`
and the rate may be `0`); in the CSV path, `original_currency` and
`exchange_rate` are present and the currency is not `USD` (but
`original_amount` may be absent and the rate may be `0`). -/
theorem c2_amended_forex_invariant :
    (∀ (lines : List (List Char)) (ts : List PdfTxn), parseCapLines lines = some ts →
      ∀ t ∈ ts, t.has_forex = true →
        t.original_amount.isSome = true ∧ t.original_currency.isSome = true ∧
          t.exchange_rate.isSome = true) ∧
    (∀ (pd : String → String) (headers : List String) (mapping : ColMap)
      (row : List (String × String)) (t : CsvTxn),
      process_csv_row pd headers mapping row = some t → t.has_forex = true →
        t.original_currency.isSome = true ∧ t.exchange_rate.isSome = true ∧
          t.original_currency ≠ some "USD") := by
  constructor
  · intro lines ts h t ht hf
    exact (parseCapLines_mem lines ts h t ht).2.2 hf
  · intro pd headers mapping row t h hf
    exact process_csv_row_forex pd headers mapping row t h hf

/-- Witness for C2 at the concrete USD block and the complete MXN CSV
row. -/
theorem c2_witness :
    (usdTxn.original_amount.isSome = true ∧ usdTxn.original_currency.isSome = true ∧
      usdTxn.exchange_rate.isSome = true) ∧
    (csvMxnTxn.original_currency.isSome = true ∧ csvMxnTxn.exchange_rate.isSome = true ∧
      csvMxnTxn.original_currency ≠ some "USD") := by
  constructor
  · exact c2_amended_forex_invariant.1 usdLines [usdTxn]
      (by with_unfolding_all rfl) usdTxn (by simp) rfl
  · exact c2_amended_forex_invariant.2 (fun s => s) csvHeaders3
      (map_columns csvHeaders3) csvForexFullRow csvMxnTxn
      (by with_unfolding_all rfl) rfl

theorem csvForexT2_amount (rowDict : List (String × String)) (t1 : CsvTxn) :
    (csvForexT2 rowDict t1).amount = t1.amount := by
  unfold csvForexT2; split <;> rfl

theorem csvForexT3_amount (rowDict : List (String × String)) (t2 : CsvTxn) :
    (csvForexT3 rowDict t2).amount = t2.amount := by
  unfold csvForexT3
  split
  · split
    · split <;> rfl
    · rfl
  · rfl

/-- Forex enrichment never touches the amount. -/
theorem csvForexEnrich_amount (rowDict : List (String × String)) (base : CsvTxn) :
    (csvForexEnrich rowDict base).amount = base.amount := by
  unfold csvForexEnrich
  split
  · split
    · split
      · show (csvForexT3 rowDict (csvForexT2 rowDict (csvForexT1 rowDict base))).amount =
          base.amount
        rw [csvForexT3_amount, csvForexT2_amount]; rfl
      · rw [csvForexT3_amount, csvForexT2_amount]; rfl
    · rfl
  · rfl

/-- Rows whose parsed amount is zero are skipped, so every emitted CSV
transaction has a non-zero amount. -/
theorem process_csv_row_amount (pd : String → String) (headers : List String)
    (mapping : ColMap) (row : List (String × String)) (t : CsvTxn)
    (h : process_csv_row pd headers mapping row = some t) : t.amount ≠ 0 := by
  simp only [process_csv_row] at h
  repeat' split at h
  all_goals try exact Option.noConfusion h
  rw [Option.some_inj] at h
  subst h
  rw [csvForexEnrich_amount]
  simp only [mkCsvBase]
  assumption

/-- C9, counterexample: a CSV row whose description cell exists but is empty
is emitted with an empty description (`row_dict.get(col, "Unknown")` falls
back to `"Unknown"` only when the column is missing, not when the cell is
empty), violating the non-empty-description invariant. -/
theorem c9_counterexample :
    process_csv_row (fun s => s) csvHeaders3 (map_columns csvHeaders3) csvEmptyDescRow =
      some csvEmptyDescTxn ∧ csvEmptyDescTxn.description = "" ∧
      csvEmptyDescTxn.amount ≠ 0 := by
  refine ⟨by with_unfolding_all rfl, rfl, ?_⟩
  show -(23 / 4 : ℚ) ≠ 0
  norm_num

/-- C9, amended: every transaction emitted by the capital-one PDF text
parser and by the CSV single-header row loop has a non-zero amount (the
parsers skip zero-amount rows); the non-empty-description half of the
claimed invariant does not hold (see the counterexample). -/
theorem c9_amended_nonzero_amount :
    (∀ (lines : List (List Char)) (ts : List PdfTxn), parseCapLines lines = some ts →
      ∀ t ∈ ts, t.amount ≠ 0) ∧
    (∀ (pd : String → String) (headers : List String) (mapping : ColMap)
      (row : List (String × String)) (t : CsvTxn),
      process_csv_row pd headers mapping row = some t → t.amount ≠ 0) := by
  constructor
  · intro lines ts h t ht
    obtain ⟨h1, h2, -⟩ := parseCapLines_mem lines ts h t ht
    by_cases hp : isPaymentDesc t.description = true
    · exact ne_of_gt (h1 hp)
    · exact ne_of_lt (h2 (Bool.not_eq_true _ ▸ hp))
  · intro pd headers mapping row t h
    exact process_csv_row_amount pd headers mapping row t h

/-- Witness for C9 at the Example-1 block and the empty-description CSV
row. -/
theorem c9_witness : uberTxn.amount ≠ 0 ∧ csvEmptyDescTxn.amount ≠ 0 := by
  constructor
  · exact c9_amended_nonzero_amount.1 (splitNl uberBlock) [uberTxn]
      (by with_unfolding_all rfl) uberTxn (by simp)
  · exact c9_amended_nonzero_amount.2 (fun s => s) csvHeaders3
      (map_columns csvHeaders3) csvEmptyDescRow csvEmptyDescTxn
      (by with_unfolding_all rfl)

/-- C5: every table whose accuracy is below the threshold is dropped by the
extraction loop and contributes nothing (the kept list is exactly the
cleaned dataframes of tables with accuracy above 50 and non-empty), and
when no usable table remains `process_pdf` falls back to pdfminer raw-text
extraction and reports `extraction_method = "pdfminer_text"`. -/
theorem c5_low_accuracy_discarded_with_fallback (ts : List DetectedTable) :
    (∀ (t : DetectedTable), t.accuracy < 50 →
      ∀ (pre post : List DetectedTable),
        extract_tables_with_camelot (pre ++ t :: post) =
          extract_tables_with_camelot (pre ++ post)) ∧
    ((∀ t ∈ ts, t.accuracy < 50) → extract_tables_with_camelot ts = []) ∧
    (extract_tables_with_camelot ts = [] →
      processPdfExtractionMethod ts = "pdfminer_text") := by
  have hdrop : ∀ (t : DetectedTable), t.accuracy < 50 →
      ∀ (pre post : List DetectedTable),
        extract_tables_with_camelot (pre ++ t :: post) =
          extract_tables_with_camelot (pre ++ post) := by
    intro t hacc pre post
    unfold extract_tables_with_camelot
    rw [List.filterMap_append, List.filterMap_append, List.filterMap_cons]
    rw [if_neg (fun hk => absurd hk.1 (not_lt.mpr (le_of_lt hacc)))]
  refine ⟨hdrop, ?_, ?_⟩
  · intro hall
    induction ts with
    | nil => rfl
    | cons a l ih =>
      have ha : a.accuracy < 50 := hall a (List.mem_cons_self a l)
      have := hdrop a ha [] l
      rw [List.nil_append, List.nil_append] at this
      rw [this]
      exact ih (fun t ht => hall t (List.mem_cons_of_mem a ht))
  · intro hempty
    unfold processPdfExtractionMethod
    rw [hempty]
    rfl

/-- Witness for C5 at Example 5: a single table at 40% accuracy is
discarded and the pipeline reports the text-fallback mode. -/
theorem c5_witness :
    extract_tables_with_camelot [tbl40] = [] ∧
      processPdfExtractionMethod [tbl40] = "pdfminer_text" := by
  have h := c5_low_accuracy_discarded_with_fallback [tbl40]
  have h1 : extract_tables_with_camelot [tbl40] = [] := by
    refine h.2.1 ?_
    intro t ht
    rw [List.mem_singleton] at ht
    subst ht
    show (40 : ℚ) < 50
    norm_num
  exact ⟨h1, h.2.2 h1⟩

/-- C7, counterexample: with zero transactions the MCP server's
`process_bank_pdf` does report `success = True`, but its summary is left as
the initial empty dict (modelled `none`): the aggregate fields are absent,
not present-and-zero as the claim states. -/
theorem c7_counterexample :
    (process_bank_pdf_assemble []).success = true ∧
      (process_bank_pdf_assemble []).summary = none := ⟨rfl, rfl⟩

/-- C7, amended: zero extracted transactions is not an error.  The camelot
processor substitutes the well-formed all-zero summary (every aggregate
field present and zero, empty category breakdown), and the MCP server
reports `success = true` — but the MCP server's summary stays an empty
mapping rather than an all-zero one. -/
theorem c7_amended_zero_transactions_result :
    camelotProcessPdfSummary [] = zeroCamSummary ∧
      zeroCamSummary.total_transactions = 0 ∧ zeroCamSummary.net_amount = 0 ∧
      zeroCamSummary.total_debits = 0 ∧ zeroCamSummary.total_credits = 0 ∧
      zeroCamSummary.category_breakdown = [] ∧ zeroCamSummary.date_range = none ∧
      (process_bank_pdf_assemble []).success = true ∧
      (process_bank_pdf_assemble []).transactions = [] ∧
      (process_bank_pdf_assemble []).summary = none :=
  ⟨rfl, rfl, rfl, rfl, rfl, rfl, rfl, rfl, rfl, rfl⟩

/-! ## Lemmas for the summary aggregators -/

theorem pyMin_min (x y : α) (ys : List α) [LinearOrder α] :
    pyMin x (y :: ys) = pyMin (min x y) ys := rfl

theorem pyMax_max (x y : α) (ys : List α) [LinearOrder α] :
    pyMax x (y :: ys) = pyMax (max x y) ys := rfl

theorem pyMin_mem [LinearOrder α] (x : α) (xs : List α) : pyMin x xs ∈ x :: xs := by
  induction xs generalizing x with
  | nil => simp [pyMin]
  | cons y ys ih =>
    rw [pyMin_min]
    rcases List.mem_cons.mp (ih (min x y)) with h | h
    · rcases min_choice x y with hm | hm <;> rw [h, hm] <;> simp
    · simp [h]

theorem pyMin_le [LinearOrder α] (x : α) (xs : List α) :
    ∀ y ∈ x :: xs, pyMin x xs ≤ y := by
  induction xs generalizing x with
  | nil => simp [pyMin]
  | cons z zs ih =>
    intro y hy
    rw [pyMin_min]
    have hhead : pyMin (min x z) zs ≤ min x z :=
      ih (min x z) (min x z) (List.mem_cons_self _ _)
    rcases List.mem_cons.mp hy with h1 | hy2
    · rw [h1]; exact le_trans hhead (min_le_left x z)
    rcases List.mem_cons.mp hy2 with h2 | hy3
    · rw [h2]; exact le_trans hhead (min_le_right x z)
    · exact ih (min x z) y (List.mem_cons_of_mem _ hy3)

theorem pyMax_mem [LinearOrder α] (x : α) (xs : List α) : pyMax x xs ∈ x :: xs := by
  induction xs generalizing x with
  | nil => simp [pyMax]
  | cons y ys ih =>
    rw [pyMax_max]
    rcases List.mem_cons.mp (ih (max x y)) with h | h
    · rcases max_choice x y with hm | hm <;> rw [h, hm] <;> simp
    · simp [h]

theorem pyMax_ge [LinearOrder α] (x : α) (xs : List α) :
    ∀ y ∈ x :: xs, y ≤ pyMax x xs := by
  induction xs generalizing x with
  | nil => simp [pyMax]
  | cons z zs ih =>
    intro y hy
    rw [pyMax_max]
    have hhead : max x z ≤ pyMax (max x z) zs :=
      ih (max x z) (max x z) (List.mem_cons_self _ _)
    rcases List.mem_cons.mp hy with h1 | hy2
    · rw [h1]; exact le_trans (le_max_left x z) hhead
    rcases List.mem_cons.mp hy2 with h2 | hy3
    · rw [h2]; exact le_trans (le_max_right x z) hhead
    · exact ih (max x z) y (List.mem_cons_of_mem _ hy3)

/-- Shorthand for the claim-side aggregate sums. -/
def creditsSum (ts : List STxn) : ℚ :=
  ((ts.filter (fun t => 0 < t.amount)).map (fun t => t.amount)).sum

def debitsSum (ts : List STxn) : ℚ :=
  ((ts.filter (fun t => t.amount < 0)).map (fun t => |t.amount|)).sum

/-- The signed total over all transactions splits into the positive and the
negative parts (zero amounts contribute nothing). -/
theorem sum_split_pos_neg (ts : List STxn) :
    (ts.map (fun t => t.amount)).sum =
      creditsSum ts + ((ts.filter (fun t => t.amount < 0)).map (fun t => t.amount)).sum := by
  induction ts with
  | nil => simp [creditsSum]
  | cons t rest ih =>
    simp only [creditsSum, List.map_cons, List.sum_cons, List.filter_cons] at ih ⊢
    rcases lt_trichotomy t.amount 0 with hlt | heq | hgt
    · rw [if_neg (by simpa using not_lt.mpr (le_of_lt hlt)), if_pos (by simpa using hlt)]
      simp only [List.map_cons, List.sum_cons]
      rw [ih]; ring
    · rw [if_neg (by simp [heq]), if_neg (by simp [heq])]
      rw [heq, ih]; ring
    · rw [if_pos (by simpa using hgt), if_neg (by simpa using not_lt.mpr (le_of_lt hgt))]
      simp only [List.map_cons, List.sum_cons]
      rw [ih]; ring

/-- The absolute debit total is the negated signed sum over the debits. -/
theorem debitsSum_eq_neg_sum (ts : List STxn) :
    debitsSum ts = -((ts.filter (fun t => t.amount < 0)).map (fun t => t.amount)).sum := by
  induction ts with
  | nil => simp [debitsSum]
  | cons t rest ih =>
    simp only [debitsSum, List.filter_cons] at ih ⊢
    by_cases hlt : t.amount < 0
    · rw [if_pos (by simpa using hlt)]
      simp only [List.map_cons, List.sum_cons]
      rw [abs_of_neg hlt, ih]; ring
    · rw [if_neg (by simpa using hlt)]
      exact ih

/-- Net amount as computed by `generate_summary` (a plain sum) equals
credits minus debits. -/
theorem net_eq_credits_sub_debits (ts : List STxn) :
    (ts.map (fun t => t.amount)).sum = creditsSum ts - debitsSum ts := by
  rw [sum_split_pos_neg, debitsSum_eq_neg_sum]; ring

theorem lookupCat_addCat_same (l : List (String × Nat × ℚ)) (c : String) (a : ℚ) :
    lookupCat (addCat l c a) c =
      some (match lookupCat l c with
            | none => (1, a)
            | some (n, q) => (n + 1, q + a)) := by
  induction l with
  | nil => simp [addCat, lookupCat]
  | cons p rest ih =>
    obtain ⟨c', n, q⟩ := p
    by_cases hc : c' = c
    · subst hc
      simp [addCat, lookupCat]
    · simp only [addCat, lookupCat, if_neg hc, ih]

theorem lookupCat_addCat_other (l : List (String × Nat × ℚ)) (cadd c : String)
    (a : ℚ) (h : cadd ≠ c) : lookupCat (addCat l cadd a) c = lookupCat l c := by
  induction l with
  | nil => simp [addCat, lookupCat, h]
  | cons p rest ih =>
    obtain ⟨c', n, q⟩ := p
    by_cases hc : c' = cadd
    · subst hc
      simp [addCat, lookupCat, h]
    · simp only [addCat, lookupCat, if_neg hc, ih]

/-- Running the category-stats fold: the entry for `c` combines whatever the
accumulator already holds with the count and signed total of the matching
transactions. -/
theorem lookupCat_foldl_addCat (ts : List STxn) (acc : List (String × Nat × ℚ))
    (c : String) :
    lookupCat (ts.foldl (fun acc t => addCat acc t.category t.amount) acc) c =
      match lookupCat acc c, ts.filter (fun t => t.category = c) with
      | none, [] => none
      | none, ms => some (ms.length, (ms.map (fun t => t.amount)).sum)
      | some (n, q), ms => some (n + ms.length, q + (ms.map (fun t => t.amount)).sum) := by
  induction ts generalizing acc with
  | nil =>
    simp only [List.foldl_nil, List.filter_nil]
    rcases h : lookupCat acc c with _ | ⟨n, q⟩
    · rfl
    · simp
  | cons t rest ih =>
    simp only [List.foldl_cons, List.filter_cons]
    by_cases hc : t.category = c
    · rw [if_pos (by simpa using hc)]
      rw [ih (addCat acc t.category t.amount)]
      rw [hc, lookupCat_addCat_same acc c t.amount]
      rcases hacc : lookupCat acc c with _ | ⟨n, q⟩
      · simp only [List.length_cons, List.map_cons, List.sum_cons, Option.some_inj,
          Prod.mk.injEq]
        constructor
        · omega
        · ring
      · simp only [List.length_cons, List.map_cons, List.sum_cons, Option.some_inj,
          Prod.mk.injEq]
        constructor
        · omega
        · ring
    · rw [if_neg (by simpa using hc)]
      rw [ih (addCat acc t.category t.amount)]
      rw [lookupCat_addCat_other acc t.category c t.amount hc]

/-- The API server's income/expense accumulation, run from an arbitrary
starting pair. -/
theorem api_foldl_split (amounts : List ℚ) (i e : ℚ) :
    amounts.foldl (fun (p : ℚ × ℚ) a => if 0 < a then (p.1 + a, p.2) else (p.1, p.2 + a))
        (i, e) =
      (i + (amounts.filter (fun a => 0 < a)).sum,
        e + (amounts.filter (fun a => ¬0 < a)).sum) := by
  induction amounts generalizing i e with
  | nil => simp
  | cons a rest ih =>
    simp only [List.foldl_cons, List.filter_cons]
    by_cases ha : 0 < a
    · rw [if_pos ha, if_pos (by simpa using ha), if_neg (by simpa using ha)]
      rw [ih]
      simp only [List.sum_cons, Prod.mk.injEq]
      constructor <;> ring
    · rw [if_neg ha, if_neg (by simpa using ha), if_pos (by simpa using ha)]
      rw [ih]
      simp only [List.sum_cons, Prod.mk.injEq]
      constructor <;> ring

/-- The non-positive part of the signed sum is minus the absolute debit
total (zero amounts contribute nothing). -/
theorem sum_nonpos_eq_neg_abs (amounts : List ℚ) :
    (amounts.filter (fun a => ¬0 < a)).sum =
      -((amounts.filter (fun a => a < 0)).map (fun a => |a|)).sum := by
  induction amounts with
  | nil => simp
  | cons a rest ih =>
    simp only [List.filter_cons]
    rcases lt_trichotomy a 0 with hlt | heq | hgt
    · rw [if_pos (by simpa using not_lt.mpr (le_of_lt hlt)), if_pos (by simpa using hlt)]
      simp only [List.sum_cons, List.map_cons]
      rw [abs_of_neg hlt, ih]; ring
    · subst heq
      rw [if_pos (by simp), if_neg (by simp)]
      simp only [List.sum_cons]
      rw [ih]; ring
    · rw [if_neg (by simpa using hgt), if_neg (by simpa using not_lt.mpr (le_of_lt hgt))]
      exact ih

/-- C8: for a non-empty transaction list, camelot's `generate_summary`
reports the list length, the absolute debit total, the positive credit
total, a net amount equal to credits minus debits, a category breakdown
whose entry for each category is the count and signed total of its
transactions, and a date range that is the minimum and maximum of the date
strings; the MCP server's summary defines net as credits minus debits
outright, and the API server's `total_income + total_expenses` also equals
credits minus debits. -/
theorem c8_summary_aggregates (ts : List STxn) (hne : ts ≠ []) :
    (∃ s, generate_summary ts = some s ∧
      s.total_transactions = ts.length ∧
      s.total_debits = debitsSum ts ∧
      s.total_credits = creditsSum ts ∧
      s.net_amount = s.total_credits - s.total_debits ∧
      (∀ c, lookupCat s.category_breakdown c =
        (if (ts.filter (fun t => t.category = c)).isEmpty then none
         else some ((ts.filter (fun t => t.category = c)).length,
           ((ts.filter (fun t => t.category = c)).map (fun t => t.amount)).sum))) ∧
      (∃ lo hi, s.date_range = some (lo, hi) ∧
        lo ∈ ts.map (fun t => t.date) ∧ hi ∈ ts.map (fun t => t.date) ∧
        ∀ d ∈ ts.map (fun t => t.date), lo ≤ d ∧ d ≤ hi)) ∧
    (∀ ts' : List STxn, ∀ s, (process_bank_pdf_assemble ts').summary = some s →
      s.net_amount = s.total_credits - s.total_debits) ∧
    (∀ amounts : List ℚ,
      (api_summary amounts).net_amount =
        (amounts.filter (fun a => 0 < a)).sum -
          ((amounts.filter (fun a => a < 0)).map (fun a => |a|)).sum) := by
  refine ⟨?_, ?_, ?_⟩
  · match ts, hne with
    | t0 :: rest, _ =>
      refine ⟨_, rfl, rfl, rfl, rfl, ?_, ?_, ?_⟩
      · rw [net_eq_credits_sub_debits]
        rfl
      · intro c
        have h := lookupCat_foldl_addCat (t0 :: rest) [] c
        rw [show lookupCat [] c = none from rfl] at h
        rw [h]
        rcases hf : (t0 :: rest).filter (fun t => t.category = c) with _ | ⟨m, ms⟩
        · rw [hf]
          simp
        · rw [hf]
          simp
      · refine ⟨pyMin t0.date (rest.map (fun t => t.date)),
          pyMax t0.date (rest.map (fun t => t.date)), rfl, ?_, ?_, ?_⟩
        · simpa using pyMin_mem t0.date (rest.map (fun t => t.date))
        · simpa using pyMax_mem t0.date (rest.map (fun t => t.date))
        · intro d hd
          have hd' : d ∈ t0.date :: rest.map (fun t => t.date) := by simpa using hd
          exact ⟨pyMin_le t0.date _ d hd', pyMax_ge t0.date _ d hd'⟩
  · intro ts' s h
    unfold process_bank_pdf_assemble at h
    by_cases hts : ts'.isEmpty
    · rw [if_pos hts] at h
      exact Option.noConfusion h
    · rw [if_neg hts, Option.some_inj] at h
      subst h
      rfl
  · intro amounts
    unfold api_summary
    rw [api_foldl_split, sum_nonpos_eq_neg_abs]
    simp only [zero_add]
    ring

/-- Witness for C8 at a concrete three-transaction list. -/
theorem c8_witness :
    sumTs3 ≠ [] ∧
    ∃ s, generate_summary sumTs3 = some s ∧
      s.total_transactions = sumTs3.length ∧
      s.total_debits = debitsSum sumTs3 ∧
      s.total_credits = creditsSum sumTs3 ∧
      s.net_amount = s.total_credits - s.total_debits ∧
      lookupCat s.category_breakdown "Other" =
        (if (sumTs3.filter (fun t => t.category = "Other")).isEmpty then none
         else some ((sumTs3.filter (fun t => t.category = "Other")).length,
           ((sumTs3.filter (fun t => t.category = "Other")).map (fun t => t.amount)).sum)) := by
  refine ⟨by simp [sumTs3], ?_⟩
  obtain ⟨⟨s, hs, h1, h2, h3, h4, h5, -⟩, -, -⟩ :=
    c8_summary_aggregates sumTs3 (by simp [sumTs3])
  exact ⟨s, hs, h1, h2, h3, h4, h5 "Other"⟩

/-! ## Deduplication lemmas -/

/-- The accumulator passes through the dedup loop unchanged, followed by a
sublist of the input (survivors keep their input order and values). -/
theorem dedupAux_append (tol : ℚ) (l : List DTxn) :
    ∀ acc : List DTxn, ∃ s : List DTxn, s.Sublist l ∧ dedupAux tol acc l = acc ++ s := by
  induction l with
  | nil =>
    intro acc
    exact ⟨[], List.nil_sublist [], by simp [dedupAux]⟩
  | cons t rest ih =>
    intro acc
    by_cases hm : acc.any (fun e => transactions_match t e tol) = true
    · obtain ⟨s, hs, he⟩ := ih acc
      exact ⟨s, List.Sublist.cons t hs, by simp [dedupAux, hm, he]⟩
    · obtain ⟨s, hs, he⟩ := ih (acc ++ [t])
      refine ⟨t :: s, List.Sublist.cons₂ t hs, ?_⟩
      simp only [dedupAux, hm, if_false, Bool.false_eq_true]
      rw [he, List.append_assoc]
      rfl

/-- Accepted transactions never match an earlier accepted one. -/
theorem dedupAux_pairwise (tol : ℚ) (l : List DTxn) :
    ∀ acc : List DTxn,
      List.Pairwise (fun a b => transactions_match b a tol = false) acc →
      List.Pairwise (fun a b => transactions_match b a tol = false)
        (dedupAux tol acc l) := by
  induction l with
  | nil => intro acc hp; simpa [dedupAux] using hp
  | cons t rest ih =>
    intro acc hp
    by_cases hm : acc.any (fun e => transactions_match t e tol) = true
    · simp only [dedupAux, hm, if_true]
      exact ih acc hp
    · simp only [dedupAux, hm, if_false, Bool.false_eq_true]
      refine ih (acc ++ [t]) ?_
      rw [List.pairwise_append]
      refine ⟨hp, List.pairwise_singleton _ _, ?_⟩
      intro e he t' ht'
      rw [List.mem_singleton] at ht'
      subst ht'
      rw [List.any_eq_true] at hm
      push_neg at hm
      simpa using hm e he

/-- Every input transaction either survives or matches a survivor. -/
theorem dedupAux_cover (tol : ℚ) (l : List DTxn) :
    ∀ acc : List DTxn, ∀ t ∈ l,
      t ∈ dedupAux tol acc l ∨
        ∃ s ∈ dedupAux tol acc l, transactions_match t s tol = true := by
  induction l with
  | nil => intro acc t ht; simp at ht
  | cons t0 rest ih =>
    intro acc t ht
    rcases List.mem_cons.mp ht with rfl | htr
    · by_cases hm : acc.any (fun e => transactions_match t e tol) = true
      · simp only [dedupAux, hm, if_true]
        rw [List.any_eq_true] at hm
        obtain ⟨e, he, hme⟩ := hm
        obtain ⟨s, -, happ⟩ := dedupAux_append tol rest acc
        refine Or.inr ⟨e, ?_, by simpa using hme⟩
        rw [happ]
        exact List.mem_append_left s he
      · simp only [dedupAux, hm, if_false, Bool.false_eq_true]
        obtain ⟨s, -, happ⟩ := dedupAux_append tol rest (acc ++ [t])
        refine Or.inl ?_
        rw [happ]
        exact List.mem_append_left s (List.mem_append_right acc (List.mem_singleton.mpr rfl))
    · by_cases hm : acc.any (fun e => transactions_match t0 e tol) = true
      · simp only [dedupAux, hm, if_true]
        exact ih acc t htr
      · simp only [dedupAux, hm, if_false, Bool.false_eq_true]
        exact ih (acc ++ [t0]) t htr

/-- Enabled deduplication always runs the accumulator loop from `[]`. -/
theorem deduplicate_eq_dedupAux (tol : ℚ) (l : List DTxn) :
    deduplicate_transactions l true tol = dedupAux tol [] l := by
  cases l with
  | nil => simp [deduplicate_transactions, dedupAux]
  | cons t rest => simp [deduplicate_transactions]

/-- C10: deduplication never modifies a transaction — its output is an
order-preserving sublist of its input; with dedup disabled, or on an empty
list, the input is returned unchanged; each survivor matches no earlier
survivor (it is the first member of its duplicate group); and every dropped
transaction matches some survivor. -/
theorem c10_dedup_frame (tol : ℚ) (l : List DTxn) :
    (deduplicate_transactions l true tol).Sublist l ∧
    deduplicate_transactions l false tol = l ∧
    deduplicate_transactions ([] : List DTxn) true tol = [] ∧
    List.Pairwise (fun a b => transactions_match b a tol = false)
      (deduplicate_transactions l true tol) ∧
    (∀ t ∈ l, t ∉ deduplicate_transactions l true tol →
      ∃ s ∈ deduplicate_transactions l true tol,
        transactions_match t s tol = true) := by
  rw [deduplicate_eq_dedupAux]
  obtain ⟨s, hs, happ⟩ := dedupAux_append tol l []
  rw [List.nil_append] at happ
  refine ⟨happ ▸ hs, by simp [deduplicate_transactions], rfl, ?_, ?_⟩
  · exact dedupAux_pairwise tol l [] List.Pairwise.nil
  · intro t ht hnot
    rcases dedupAux_cover tol l [] t ht with h | h
    · exact absurd h hnot
    · exact h

/-- Survivors of an enabled dedup run are input elements. -/
theorem dedup_subset (tol : ℚ) (l : List DTxn) :
    ∀ a ∈ deduplicate_transactions l true tol, a ∈ l := by
  intro a ha
  rw [deduplicate_eq_dedupAux] at ha
  obtain ⟨s, hs, happ⟩ := dedupAux_append tol l []
  rw [List.nil_append] at happ
  rw [happ] at ha
  exact hs.subset ha

theorem dedup_pairwise (tol : ℚ) (l : List DTxn) :
    List.Pairwise (fun a b => transactions_match b a tol = false)
      (deduplicate_transactions l true tol) := by
  rw [deduplicate_eq_dedupAux]
  exact dedupAux_pairwise tol l [] List.Pairwise.nil

/-- With the match reflexive on the input, every input element matches some
survivor. -/
theorem dedup_cover (tol : ℚ) (l : List DTxn)
    (hrefl : ∀ a ∈ l, transactions_match a a tol = true) :
    ∀ t ∈ l, ∃ s ∈ deduplicate_transactions l true tol,
      transactions_match t s tol = true := by
  intro t ht
  rw [deduplicate_eq_dedupAux]
  rcases dedupAux_cover tol l [] t ht with h | h
  · exact ⟨t, h, hrefl t ht⟩
  · exact h

/-- With the match reflexive on the input, the survivors are pairwise
distinct. -/
theorem dedup_nodup (tol : ℚ) (l : List DTxn)
    (hrefl : ∀ a ∈ l, transactions_match a a tol = true) :
    (deduplicate_transactions l true tol).Nodup := by
  refine List.Pairwise.imp_of_mem ?_ (dedup_pairwise tol l)
  intro a b ha hb hab heq
  subst heq
  rw [hrefl a (dedup_subset tol l a ha)] at hab
  exact Bool.noConfusion hab

/-- Count comparison between two permuted runs, via an injection from the
survivors of the first into the survivors of the second. -/
theorem dedup_count_le (tol : ℚ) (l₁ l₂ : List DTxn) (hperm : l₁.Perm l₂)
    (hrefl : ∀ a ∈ l₁, transactions_match a a tol = true)
    (hsymm : ∀ a ∈ l₁, ∀ b ∈ l₁,
      transactions_match a b tol = true → transactions_match b a tol = true)
    (htrans : ∀ a ∈ l₁, ∀ b ∈ l₁, ∀ c ∈ l₁,
      transactions_match a b tol = true → transactions_match b c tol = true →
        transactions_match a c tol = true) :
    (deduplicate_transactions l₁ true tol).length ≤
      (deduplicate_transactions l₂ true tol).length := by
  classical
  set d₁ := deduplicate_transactions l₁ true tol with hd₁
  set d₂ := deduplicate_transactions l₂ true tol with hd₂
  have hrefl₂ : ∀ a ∈ l₂, transactions_match a a tol = true :=
    fun a ha => hrefl a (hperm.mem_iff.mpr ha)
  have hcover₂ : ∀ t ∈ l₂, ∃ s ∈ d₂, transactions_match t s tol = true :=
    dedup_cover tol l₂ hrefl₂
  have hnd₁ : d₁.Nodup := dedup_nodup tol l₁ hrefl
  have hnd₂ : d₂.Nodup := dedup_nodup tol l₂ hrefl₂
  have hexists : ∀ a ∈ d₁, ∃ s, s ∈ d₂ ∧ transactions_match a s tol = true := by
    intro a ha
    have ha₂ : a ∈ l₂ := hperm.mem_iff.mp (dedup_subset tol l₁ a ha)
    obtain ⟨s, hs, hm⟩ := hcover₂ a ha₂
    exact ⟨s, hs, hm⟩
  let f : DTxn → DTxn := fun a =>
    if h : ∃ s, s ∈ d₂ ∧ transactions_match a s tol = true then h.choose else a
  have hmapsto : ∀ a ∈ d₁.toFinset, f a ∈ d₂.toFinset := by
    intro a ha
    rw [List.mem_toFinset] at ha
    have h := hexists a ha
    rw [List.mem_toFinset]
    show (if h' : _ then _ else _) ∈ d₂
    rw [dif_pos h]
    exact h.choose_spec.1
  have hinj : Set.InjOn f (d₁.toFinset : Set DTxn) := by
    intro a ha b hb hfab
    rw [Finset.mem_coe, List.mem_toFinset] at ha hb
    have hexa := hexists a ha
    have hexb := hexists b hb
    have hfa : f a = hexa.choose := dif_pos hexa
    have hfb : f b = hexb.choose := dif_pos hexb
    have hsame : hexa.choose = hexb.choose := by rw [← hfa, ← hfb, hfab]
    have hma : transactions_match a hexa.choose tol = true := hexa.choose_spec.2
    have hmb : transactions_match b hexa.choose tol = true := by
      rw [hsame]; exact hexb.choose_spec.2
    have hsl : hexa.choose ∈ l₁ :=
      hperm.mem_iff.mpr (dedup_subset tol l₂ _ hexa.choose_spec.1)
    have hal : a ∈ l₁ := dedup_subset tol l₁ a ha
    have hbl : b ∈ l₁ := dedup_subset tol l₁ b hb
    have hsb : transactions_match hexa.choose b tol = true := hsymm b hbl _ hsl hmb
    have hab : transactions_match a b tol = true := htrans a hal _ hsl b hbl hma hsb
    have hba : transactions_match b a tol = true := hsymm a hal b hbl hab
    by_contra hne
    have hpw' : List.Pairwise
        (fun x y => transactions_match y x tol = false ∨
          transactions_match x y tol = false) d₁ :=
      (dedup_pairwise tol l₁).imp (fun {x y} hxy => Or.inl hxy)
    have hsymR : Symmetric (fun x y => transactions_match y x tol = false ∨
        transactions_match x y tol = false) := by
      intro x y hxy
      exact hxy.symm
    rcases List.Pairwise.forall hsymR hpw' ha hb hne with h | h
    · rw [hba] at h; exact Bool.noConfusion h
    · rw [hab] at h; exact Bool.noConfusion h
  calc d₁.length = d₁.toFinset.card := (List.toFinset_card_of_nodup hnd₁).symm
    _ ≤ d₂.toFinset.card := Finset.card_le_card_of_injOn f hmapsto hinj
    _ = d₂.length := List.toFinset_card_of_nodup hnd₂

/-- C6, counterexample: the survivor count is NOT invariant under input
permutation.  The fuzzy containment match is not transitive: the long
description `xxxxxxxxxx yyyyyyyyyy` matches both ten-character
descriptions, which do not match each other; starting from the long one
collapses all three to one survivor, starting from a short one leaves
two. -/
theorem c6_counterexample :
    ([dupA, dupB, dupC] : List DTxn).Perm [dupB, dupA, dupC] ∧
    (deduplicate_transactions [dupA, dupB, dupC] true (1 / 100)).length = 2 ∧
    (deduplicate_transactions [dupB, dupA, dupC] true (1 / 100)).length = 1 := by
  refine ⟨List.Perm.swap dupB dupA [dupC], ?_, ?_⟩
  · with_unfolding_all rfl
  · with_unfolding_all rfl

/-- C6, amended: the survivor count is invariant under input permutation
provided the match relation (at the given tolerance) is reflexive,
symmetric and transitive on the input's elements — the greedy pass then
keeps exactly one representative per duplicate class.  (On general inputs
the fuzzy matcher is not transitive and the count can change; see the
counterexample.) -/
theorem c6_amended_count_invariant_under_equivalence (tol : ℚ) (l₁ l₂ : List DTxn)
    (hperm : l₁.Perm l₂)
    (hrefl : ∀ a ∈ l₁, transactions_match a a tol = true)
    (hsymm : ∀ a ∈ l₁, ∀ b ∈ l₁,
      transactions_match a b tol = true → transactions_match b a tol = true)
    (htrans : ∀ a ∈ l₁, ∀ b ∈ l₁, ∀ c ∈ l₁,
      transactions_match a b tol = true → transactions_match b c tol = true →
        transactions_match a c tol = true) :
    (deduplicate_transactions l₁ true tol).length =
      (deduplicate_transactions l₂ true tol).length := by
  refine le_antisymm (dedup_count_le tol l₁ l₂ hperm hrefl hsymm htrans) ?_
  refine dedup_count_le tol l₂ l₁ hperm.symm ?_ ?_ ?_
  · intro a ha
    exact hrefl a (hperm.mem_iff.mpr ha)
  · intro a ha b hb hab
    exact hsymm a (hperm.mem_iff.mpr ha) b (hperm.mem_iff.mpr hb) hab
  · intro a ha b hb c hc hab hbc
    exact htrans a (hperm.mem_iff.mpr ha) b (hperm.mem_iff.mpr hb)
      c (hperm.mem_iff.mpr hc) hab hbc

/-- Witness for the amended C6 on a list whose elements the matcher relates
as an equivalence (two equal transactions and an unrelated one). -/
theorem c6_witness :
    (deduplicate_transactions [eqA, eqA, eqU] true (1 / 100)).length =
      (deduplicate_transactions [eqA, eqU, eqA] true (1 / 100)).length := by
  have hAA : transactions_match eqA eqA (1 / 100) = true := by with_unfolding_all rfl
  have hUU : transactions_match eqU eqU (1 / 100) = true := by with_unfolding_all rfl
  have hAU : transactions_match eqA eqU (1 / 100) = false := by with_unfolding_all rfl
  have hUA : transactions_match eqU eqA (1 / 100) = false := by with_unfolding_all rfl
  refine c6_amended_count_invariant_under_equivalence (1 / 100) [eqA, eqA, eqU]
    [eqA, eqU, eqA] (List.Perm.cons eqA (List.Perm.swap eqU eqA [])) ?_ ?_ ?_
  · intro a ha
    fin_cases ha <;> first | exact hAA | exact hUU
  · intro a ha b hb
    fin_cases ha <;> fin_cases hb <;> simp only [hAA, hUU, hAU, hUA] <;> simp
  · intro a ha b hb c hc
    fin_cases ha <;> fin_cases hb <;> fin_cases hc <;>
      simp only [hAA, hUU, hAU, hUA] <;> simp

/-- Witness for C10 at a concrete list and tolerance. -/
theorem c10_witness :
    (deduplicate_transactions [dupA, dupB, dupC] true (1 / 100)).Sublist
        [dupA, dupB, dupC] ∧
      deduplicate_transactions [dupA, dupB, dupC] false (1 / 100) =
        [dupA, dupB, dupC] :=
  ⟨(c10_dedup_frame (1 / 100) [dupA, dupB, dupC]).1,
    (c10_dedup_frame (1 / 100) [dupA, dupB, dupC]).2.1⟩

end LedgerPro
